import Mathlib

/-!
Verification of the stamper repository's markdown outline parser
(`src/app/utils/markdownParser.ts`) and lecture session timer engine
(`src/app/services/lectureTimerService.ts`, storage glue in
`src/app/services/lectureSessionStorage.ts`).

The TypeScript code is shallowly embedded: JS strings become `String`
(manipulated through their `List Char` data), JS numbers holding epoch
milliseconds become `Int`, regular expressions used by the parser are
hand-compiled to deterministic matchers with the same semantics on the
inputs the source applies them to (always `trim`med lines), and the
mutable timer service singleton becomes explicit state passing over a
`SystemState` record that also holds the two persisted storage slots.
-/

namespace Stamper

/-! ## JavaScript string primitives

`jsIsSpace` is the character set matched by `\s` in JavaScript regular
expressions, which is also the set stripped by `String.prototype.trim`
(WhiteSpace plus LineTerminator). -/

def jsIsSpace (c : Char) : Bool :=
  c = ' ' || c = '\t' || c = '\n' || c = '\u000B' || c = '\u000C' || c = '\r' ||
  c = '\u00A0' || c = '\u1680' || ('\u2000' ≤ c && c ≤ '\u200A') ||
  c = '\u2028' || c = '\u2029' || c = '\u202F' || c = '\u205F' ||
  c = '\u3000' || c = '\uFEFF'

/-- Characters matched by `.` in a JavaScript regex (anything but a
line terminator). -/
def jsIsDot (c : Char) : Bool :=
  !(c = '\n' || c = '\r' || c = '\u2028' || c = '\u2029')

/-- `content.split("\n")`: split into lines at every newline; the empty
string yields one empty line and a trailing newline yields a trailing
empty line, as in JavaScript. -/
def splitLines : List Char → List (List Char)
  | [] => [[]]
  | c :: rest =>
    match splitLines rest with
    | [] => [[]]
    | l :: ls => if c = '\n' then [] :: l :: ls else (c :: l) :: ls

def jsTrimStart (l : List Char) : List Char := l.dropWhile jsIsSpace

def jsTrimEnd (l : List Char) : List Char := (l.reverse.dropWhile jsIsSpace).reverse

def jsTrim (l : List Char) : List Char := jsTrimEnd (jsTrimStart l)

/-- `String.prototype.trim`. -/
def jsTrimS (s : String) : String := String.mk (jsTrim s.data)

/-- `String.prototype.trimStart`. -/
def jsTrimStartS (s : String) : String := String.mk (jsTrimStart s.data)

/-! ## Regex matchers

The parser uses four regular expressions on already-trimmed lines:
`/^-\s*\[([x\s])\]\s+(.+)$/` (todo), `/^[-*]\s+(.+)$/` (bullet),
`/^#+\s*(.+)$/` (heading), plus the two look-ahead tests `/^[-*]\s/` and
`/^-\s*\[/` in `extractTitle`.  Each is compiled to a function on
`List Char`; greedy matching with backtracking is resolved by hand.
The `\s+(.+)$` tail shared by the todo and bullet patterns succeeds on a
remainder `r` iff some non-empty whitespace prefix of `r` leaves a
non-empty all-`.` suffix; with a greedy `\s+` the capture is the
remainder after the maximal whitespace run, except when `r` is all
whitespace, where backtracking leaves just the final character. -/

def tailCapture (r : List Char) : Option (List Char) :=
  let ws := r.takeWhile jsIsSpace
  let tl := r.dropWhile jsIsSpace
  if ws = [] then none
  else if tl ≠ [] then (if tl.all jsIsDot then some tl else none)
  else
    match r.reverse with
    | lastc :: _ => if 2 ≤ r.length ∧ jsIsDot lastc then some [lastc] else none
    | [] => none

/-- `/^-\s*\[([x\s])\]\s+(.+)$/` — returns the captured bracket
character and the captured rest of the line. -/
def todoMatch (s : List Char) : Option (Char × List Char) :=
  match s with
  | '-' :: r0 =>
    match r0.dropWhile jsIsSpace with
    | '[' :: c :: ']' :: r2 =>
      if c = 'x' ∨ jsIsSpace c then
        match tailCapture r2 with
        | some cap => some (c, cap)
        | none => none
      else none
    | _ => none
  | _ => none

/-- `/^[-*]\s+(.+)$/` — returns the captured rest of the line. -/
def bulletMatch (s : List Char) : Option (List Char) :=
  match s with
  | m :: r0 => if m = '-' ∨ m = '*' then tailCapture r0 else none
  | [] => none

/-- `/^#+\s*(.+)$/` on a trimmed line — returns the capture.  When the
text after the `#` run is empty, backtracking lets `#+` give up one `#`
which then satisfies `(.+)$` (so `"##"` matches with capture `"#"`). -/
def headingMatch (s : List Char) : Option (List Char) :=
  let n := (s.takeWhile (· = '#')).length
  let r := s.drop n
  if n = 0 then none
  else
    let cap := r.dropWhile jsIsSpace
    if cap ≠ [] then (if cap.all jsIsDot then some cap else none)
    else
      match r.reverse with
      | lastc :: _ => if jsIsDot lastc then some [lastc] else none
      | [] => if 2 ≤ n then some ['#'] else none

/-- `/^[-*]\s/` test used by `extractTitle`. -/
def matchesListStartWs (s : String) : Bool :=
  match s.data with
  | m :: c :: _ => (m = '-' ∨ m = '*') ∧ jsIsSpace c
  | _ => false

/-- `/^-\s*\[/` test used by `extractTitle`. -/
def matchesDashBracket (s : String) : Bool :=
  match s.data with
  | '-' :: rest => (rest.dropWhile jsIsSpace).head? = some '['
  | _ => false

/-! ## Parser data model -/

/-- A parsed item as produced by `parseMarkdownLine` (its `children`
array is still empty and no notes are attached yet). -/
structure FlatItem where
  id : String
  title : String
  completed : Option Bool
  level : Nat
deriving DecidableEq, Repr

/-- Result shape of `parseMarkdownLine`. -/
structure LineParse where
  item : Option FlatItem
  isChecklist : Option Bool
  error : Option String
deriving DecidableEq, Repr

/-- A flat item together with its attached notes, the input to
`buildNestedStructure`. -/
structure NotedItem where
  id : String
  title : String
  notes : Option String
  completed : Option Bool
  level : Nat
deriving DecidableEq, Repr

/-- `ParsedMarkdownItem` from `markdownParser.ts`. -/
inductive ParsedMarkdownItem : Type where
  | mk (id : String) (title : String) (notes : Option String)
      (completed : Option Bool) (level : Nat)
      (children : List ParsedMarkdownItem)

mutual

def decEqPMI : (a b : ParsedMarkdownItem) → Decidable (a = b)
  | .mk i t no co lv cs, .mk i' t' no' co' lv' cs' =>
    if h1 : i = i' then
      if h2 : t = t' then
        if h3 : no = no' then
          if h4 : co = co' then
            if h5 : lv = lv' then
              match decEqPMIList cs cs' with
              | isTrue h6 => isTrue (by rw [h1, h2, h3, h4, h5, h6])
              | isFalse h6 => isFalse (by intro h; injection h; contradiction)
            else isFalse (by intro h; injection h; contradiction)
          else isFalse (by intro h; injection h; contradiction)
        else isFalse (by intro h; injection h; contradiction)
      else isFalse (by intro h; injection h; contradiction)
    else isFalse (by intro h; injection h; contradiction)

def decEqPMIList : (a b : List ParsedMarkdownItem) → Decidable (a = b)
  | [], [] => isTrue rfl
  | a :: as, b :: bs =>
    match decEqPMI a b, decEqPMIList as bs with
    | isTrue h1, isTrue h2 => isTrue (by rw [h1, h2])
    | isFalse h1, _ => isFalse (by intro h; injection h; contradiction)
    | isTrue _, isFalse h2 => isFalse (by intro h; injection h; contradiction)
  | [], _ :: _ => isFalse (by intro h; exact List.noConfusion h)
  | _ :: _, [] => isFalse (by intro h; exact List.noConfusion h)

end

instance : DecidableEq ParsedMarkdownItem := decEqPMI

def ParsedMarkdownItem.id : ParsedMarkdownItem → String
  | .mk i _ _ _ _ _ => i

def ParsedMarkdownItem.title : ParsedMarkdownItem → String
  | .mk _ t _ _ _ _ => t

def ParsedMarkdownItem.notes : ParsedMarkdownItem → Option String
  | .mk _ _ n _ _ _ => n

def ParsedMarkdownItem.completed : ParsedMarkdownItem → Option Bool
  | .mk _ _ _ c _ _ => c

def ParsedMarkdownItem.level : ParsedMarkdownItem → Nat
  | .mk _ _ _ _ l _ => l

def ParsedMarkdownItem.children : ParsedMarkdownItem → List ParsedMarkdownItem
  | .mk _ _ _ _ _ cs => cs

/-- `MarkdownParseResult`. -/
structure MarkdownParseResult where
  items : List ParsedMarkdownItem
  title : Option String
  errors : List String
deriving DecidableEq

/-! ## Line-level parsing -/

/-- `getIndentationLevel`: width of the leading whitespace run with
tabs counted as two spaces, integer-divided by 2. -/
def leadingWsWidth (l : List Char) : Nat :=
  (l.takeWhile jsIsSpace).foldl (fun acc c => acc + (if c = '\t' then 2 else 1)) 0

def getIndentationLevel (line : String) : Nat := leadingWsWidth line.data / 2

def countLeadingWhitespace (line : String) : Nat := leadingWsWidth line.data

/-- Deterministic stand-in for `generateId()` (`md_${Date.now()}_…`);
the ids are opaque process-unique tokens, modelled from the source line
number. -/
def mdId (lineNumber : Nat) : String := "md_" ++ Nat.repr lineNumber

/-- The structural error string, exactly as the source builds it with
a template literal (1-based line number). -/
def mkInvalidErr (lineNumber : Nat) (trimmedLine : String) : String :=
  "Line " ++ Nat.repr (lineNumber + 1) ++ ": Invalid list format: \"" ++
    trimmedLine ++ "\""

/-- `parseMarkdownLine` from `markdownParser.ts`. -/
def parseMarkdownLine (line : String) (lineNumber : Nat) : LineParse :=
  let trimmedLine := jsTrimS line
  if trimmedLine = "" then ⟨none, none, none⟩
  else
    let level := getIndentationLevel line
    match todoMatch trimmedLine.data with
    | some (c, cap) =>
      ⟨some ⟨mdId lineNumber, jsTrimS (String.mk cap), some (c.toLower = 'x'), level⟩,
        some true, none⟩
    | none =>
      match bulletMatch trimmedLine.data with
      | some cap =>
        ⟨some ⟨mdId lineNumber, jsTrimS (String.mk cap), none, level⟩, some false, none⟩
      | none =>
        if ¬ trimmedLine.data.head? = some '-' ∧ ¬ trimmedLine.data.head? = some '*' ∧
            level = 0 then
          ⟨none, none, none⟩
        else if trimmedLine.data.head? = some '-' ∨ trimmedLine.data.head? = some '*' then
          ⟨none, none, some (mkInvalidErr lineNumber trimmedLine)⟩
        else ⟨none, none, none⟩

/-! ## Main parsing pass -/

/-- State threaded through the line loop of `parseMarkdownList`.  The
stack is kept most-recently-pushed first (the source pushes/pops at the
array end and searches from the end). -/
structure ParseState where
  errors : List String
  flatItems : List FlatItem
  itemLineIndices : List Nat
  itemStack : List FlatItem
deriving DecidableEq, Repr

def initParseState : ParseState := ⟨[], [], [], []⟩

/-- `findParentForLevel`: nearest stacked item with a strictly smaller
level. -/
def findParentForLevel (stack : List FlatItem) (level : Nat) : Option FlatItem :=
  stack.find? (fun it => it.level < level)

/-- The error-suppression test of the main loop: the line is nested and
the nearest stacked ancestor with a smaller level is a checklist item
(`completed !== undefined`). -/
def nestedUnderChecklist (stack : List FlatItem) (lineLevel : Nat) : Bool :=
  decide (0 < lineLevel) &&
    ((findParentForLevel stack lineLevel).map (fun p => p.completed.isSome)).getD false

/-- `line.trimStart().startsWith("-") || line.trimStart().startsWith("*")`. -/
def potentialListMarker (line : String) : Bool :=
  (jsTrimStartS line).data.head? = some '-' || (jsTrimStartS line).data.head? = some '*'

/-- One iteration of the main loop of `parseMarkdownList`. -/
def processLine (st : ParseState) (i : Nat) (line : String) : ParseState :=
  let pr := parseMarkdownLine line i
  let lineLevel := getIndentationLevel line
  let st1 :=
    match pr.error with
    | some e =>
      if nestedUnderChecklist st.itemStack lineLevel && potentialListMarker line &&
          pr.item.isNone then st
      else { st with errors := st.errors ++ [e] }
    | none => st
  match pr.item with
  | none => st1
  | some item =>
    let stack' := st1.itemStack.dropWhile (fun t => item.level ≤ t.level)
    let parentIsChecklistItem := ((stack'.head?).map (fun p => p.completed.isSome)).getD false
    if pr.isChecklist = some false ∧ 0 < item.level ∧ parentIsChecklistItem then
      { st1 with itemStack := stack' }
    else
      { st1 with
        flatItems := st1.flatItems ++ [item],
        itemLineIndices := st1.itemLineIndices ++ [i],
        itemStack := item :: stack' }

/-- The main loop, processing lines with indices counting up from `n`. -/
def runLinesFrom (st : ParseState) (n : Nat) : List String → ParseState
  | [] => st
  | l :: rest => runLinesFrom (processLine st n l) (n + 1) rest

/-- `extractTitle`. -/
def extractTitle : List String → Option String
  | [] => none
  | line :: rest =>
    let trimmed := jsTrimS line
    if trimmed = "" then extractTitle rest
    else
      match headingMatch trimmed.data with
      | some cap => some (jsTrimS (String.mk cap))
      | none =>
        if ¬ matchesListStartWs trimmed ∧ ¬ matchesDashBracket trimmed then some trimmed
        else none

/-! ## Notes attachment and tree building -/

/-- `attachNotesToItems`: for each retained item, the lines strictly
between its source line and the next retained item's source line are
dedented by their minimum leading-whitespace width, joined and trimmed;
a non-empty result becomes the item's notes.  The source mutates the
shared item objects after `buildNestedStructure`; here notes are
computed first and the tree is built from the noted items, which yields
the same final tree. -/
def attachNotes (lines : List String) : List (FlatItem × Nat) → List NotedItem
  | [] => []
  | (it, idx) :: rest =>
    let startLine := idx + 1
    let endLine := match rest with | [] => lines.length | (_, idx2) :: _ => idx2
    let notes :=
      if startLine ≥ endLine then none
      else
        let segment := (lines.drop startLine).take (endLine - startLine)
        let nonEmptyIndents :=
          (segment.filter (fun l => jsTrimS l ≠ "")).map countLeadingWhitespace
        let minIndent := match nonEmptyIndents with | [] => 0 | h :: t => t.foldl min h
        let normalized := jsTrimS (String.intercalate "\n"
          (segment.map (fun l =>
            if jsTrimS l = "" then ""
            else if minIndent ≤ countLeadingWhitespace l then String.mk (l.data.drop minIndent)
            else jsTrimStartS l)))
        if normalized ≠ "" then some normalized else none
    ⟨it.id, it.title, notes, it.completed, it.level⟩ :: attachNotes lines rest

/-- A pending node of `buildNestedStructure`: the item together with
the direct children collected so far. -/
structure BuildFrame where
  item : NotedItem
  children : List ParsedMarkdownItem

def finalizeFrame (f : BuildFrame) : ParsedMarkdownItem :=
  .mk f.item.id f.item.title f.item.notes f.item.completed f.item.level f.children

/-- Fold a run of popped frames top-down: each finished node becomes
the last child of the frame popped just after it. -/
def collapseChain (f : BuildFrame) : List BuildFrame → ParsedMarkdownItem
  | [] => finalizeFrame f
  | g :: gs => collapseChain { g with children := g.children ++ [finalizeFrame f] } gs

/-- Pop stack frames whose level is ≥ `level`, folding the finished
chain into its parent frame (or the root list). -/
def popFrames (level : Nat) (stack : List BuildFrame) (roots : List ParsedMarkdownItem) :
    List BuildFrame × List ParsedMarkdownItem :=
  match stack.takeWhile (fun f => level ≤ f.item.level),
      stack.dropWhile (fun f => level ≤ f.item.level) with
  | [], _ => (stack, roots)
  | f :: fs, g :: rest => ({ g with children := g.children ++ [collapseChain f fs] } :: rest, roots)
  | f :: fs, [] => ([], roots ++ [collapseChain f fs])

/-- `buildNestedStructure`: the monotonic-stack reparenting of the flat
item list. -/
def buildNested (items : List NotedItem) : List ParsedMarkdownItem :=
  let (stack, roots) := items.foldl
    (fun acc it =>
      let (stack', roots') := popFrames it.level acc.1 acc.2
      (⟨it, []⟩ :: stack', roots'))
    ([], [])
  (popFrames 0 stack roots).2

/-- `parseMarkdownList`. -/
def parseMarkdownList (content : String) : MarkdownParseResult :=
  let lines := (splitLines content.data).map String.mk
  let title := extractTitle lines
  let final := runLinesFrom initParseState 0 lines
  let noted := attachNotes lines (final.flatItems.zip final.itemLineIndices)
  let nestedItems := buildNested noted
  ⟨nestedItems, title, final.errors⟩

/-! ## Validation and flattening -/

mutual

/-- One step of `validateItemsRecursively`: the item's own empty-title
check (`!item.title || item.title.trim() === ""`) followed by the
recursion into a non-empty `children` array. -/
def validateItem : ParsedMarkdownItem → List String
  | .mk i t _ _ _ cs =>
    (if t = "" ∨ jsTrimS t = "" then ["Item with ID " ++ i ++ " has empty title"] else []) ++
      (if 0 < cs.length then validateList cs else [])

/-- The recursive pass of `validateMarkdownItems`. -/
def validateList : List ParsedMarkdownItem → List String
  | [] => []
  | it :: rest => validateItem it ++ validateList rest

end

/-- `validateMarkdownItems`. -/
def validateMarkdownItems (items : List ParsedMarkdownItem) :
    Bool × List String :=
  let errors :=
    (if items.length = 0 then ["No valid list items found"] else []) ++ validateList items
  (errors.length == 0, errors)

mutual

/-- An item together with all of its descendants, in depth-first
pre-order. -/
def selfAndDescendants : ParsedMarkdownItem → List ParsedMarkdownItem
  | .mk i t no co lv cs => .mk i t no co lv cs :: allItems cs

/-- Every item of a tree list in depth-first pre-order (used to state
properties about items "at every nesting depth"). -/
def allItems : List ParsedMarkdownItem → List ParsedMarkdownItem
  | [] => []
  | it :: rest => selfAndDescendants it ++ allItems rest

end

/-- Flat outline item shape `{id, title, notes?}`. -/
structure OutFlatItem where
  id : String
  title : String
  notes : Option String
deriving DecidableEq, Repr

mutual

/-- One step of the walk of `flattenMarkdownItems`: the item itself
followed by its children with the prefix grown by two spaces.
`item.notes ? {notes} : {}` drops an empty-string notes field (JS
truthiness). -/
def flattenItem (pre : String) : ParsedMarkdownItem → List OutFlatItem
  | .mk i t no _ _ cs =>
    ⟨i, pre ++ t, match no with | some s => if s = "" then none else some s | none => none⟩ ::
      (if 0 < cs.length then flattenRec (pre ++ "  ") cs else [])

/-- The recursive walk of `flattenMarkdownItems`; `pre` is the leading
two-spaces-per-depth indentation prefix. -/
def flattenRec (pre : String) : List ParsedMarkdownItem → List OutFlatItem
  | [] => []
  | it :: rest => flattenItem pre it ++ flattenRec pre rest

end

/-- `flattenMarkdownItems`. -/
def flattenMarkdownItems (items : List ParsedMarkdownItem) : List OutFlatItem :=
  flattenRec "" items

/-! ## Lecture session timer engine

`LectureTimerService` from `lectureTimerService.ts`.  The mutable
singleton becomes explicit state passing: every method is a function
`SystemState → … → SystemState` (returning its result alongside where
the source returns one).  `Date.now()` becomes an explicit `now : Int`
parameter (epoch milliseconds); `stopLecture` reads the clock twice in
the source (once itself, once inside the `pauseLecture` it may invoke),
so it takes two time parameters.  The JavaScript `Set<string>` of
checked item ids becomes an insertion-ordered duplicate-free list. -/

/-- `{start, end}` pause interval; `end = 0` is the open-interval
sentinel. -/
structure PausedInterval where
  start : Int
  «end» : Int
deriving DecidableEq, Repr

structure ItemTimestamp where
  itemId : String
  timestamp : Int
deriving DecidableEq, Repr

/-- `LectureSession` from the Outline model. -/
structure LectureSession where
  id : String
  outlineId : String
  startedAt : Int
  pausedIntervals : List PausedInterval
  itemTimestamps : List ItemTimestamp
  completedAt : Option Int
deriving DecidableEq, Repr

/-- `TimerState`. -/
structure TimerState where
  isRunning : Bool
  startTime : Option Int
  pausedTime : Int
  pausedIntervals : List PausedInterval
deriving DecidableEq, Repr

/-- `PausedLectureState` from `lectureSessionStorage.ts`. -/
structure PausedLectureState where
  session : LectureSession
  timer : TimerState
  checkedItemIds : List String
deriving DecidableEq, Repr

/-- Outline model item (`{id, title, coveredAt?}`). -/
structure OutlineItem where
  id : String
  title : String
  coveredAt : Option Int
deriving DecidableEq, Repr

/-- `Outline` model. -/
structure Outline where
  id : String
  title : String
  items : List OutlineItem
deriving DecidableEq, Repr

/-- The whole mutable world the timer engine touches: the service's
private fields plus the two persisted storage slots.

Modelled from the spec: the opaque key-value store (`src/app/utils/
storage` is not part of the sources; §6 of the spec specifies it as a
synchronous `load`/`save`-by-key collaborator) is modelled as the two
slots used by the core — `lecture_current_session` (`pausedSlot`) and
`lecture_sessions` (`sessions`) — where a load returns the last saved
value.

The source aliases the interval object pushed by `pauseLecture` between
`timerState.pausedIntervals` and the session's own list, so closing the
interval on resume mutates both; a restored snapshot has been through
serialization, which breaks that aliasing.  The flag `aliasLast` records
whether the last timer interval is currently that shared object. -/
structure SystemState where
  timerState : TimerState
  currentSession : Option LectureSession
  checkedItemIds : List String
  aliasLast : Bool
  pausedSlot : Option PausedLectureState
  sessions : List LectureSession
deriving DecidableEq, Repr

def initSystem : SystemState :=
  ⟨⟨false, none, 0, []⟩, none, [], false, none, []⟩

/-- `persistPausedSnapshot`: saves the live session, timer state and
checked ids into the paused-state slot (no-op without a session). -/
def persistPausedSnapshot (s : SystemState) : SystemState :=
  match s.currentSession with
  | none => s
  | some sess =>
    { s with pausedSlot := some ⟨sess, s.timerState, s.checkedItemIds⟩ }

/-- `Set.prototype.add`: insertion-ordered, ignores duplicates. -/
def insertOnce (l : List String) (x : String) : List String :=
  if x ∈ l then l else l ++ [x]

/-- `new Set(array)` iterates the array adding each element: the result
keeps the first occurrence of each element, in order. -/
def dedupKeepFirstAux (seen : List String) : List String → List String
  | [] => []
  | x :: r =>
    if x ∈ seen then dedupKeepFirstAux seen r
    else x :: dedupKeepFirstAux (seen ++ [x]) r

def dedupKeepFirst (l : List String) : List String := dedupKeepFirstAux [] l

/-- `startLecture`. -/
def startLecture (s : SystemState) (outline : Outline) (now : Int) :
    SystemState × LectureSession :=
  let sess : LectureSession := ⟨"session_" ++ toString now, outline.id, now, [], [], none⟩
  ({ s with
      currentSession := some sess,
      timerState := ⟨true, some now, 0, []⟩,
      checkedItemIds := [],
      aliasLast := false,
      pausedSlot := none }, sess)

/-- `pauseLecture`. -/
def pauseLecture (s : SystemState) (now : Int) : SystemState :=
  match s.timerState.isRunning, s.currentSession with
  | true, some sess =>
    let newInterval : PausedInterval := ⟨now, 0⟩
    let timer' := { s.timerState with
      isRunning := false,
      pausedIntervals := s.timerState.pausedIntervals ++ [newInterval] }
    let sess' := { sess with pausedIntervals := sess.pausedIntervals ++ [newInterval] }
    persistPausedSnapshot
      { s with timerState := timer', currentSession := some sess', aliasLast := true }
  | _, _ => s

/-- `resumeLecture`.  Closing the open interval mutates the shared
object, so when `aliasLast` holds the session's last interval closes
with it. -/
def resumeLecture (s : SystemState) (now : Int) : SystemState :=
  match s.timerState.isRunning, s.currentSession with
  | false, some sess =>
    let t := s.timerState
    match t.pausedIntervals.getLast? with
    | some iv =>
      if iv.«end» = 0 then
        let timer' := { t with
          isRunning := true,
          pausedTime := t.pausedTime + (now - iv.start),
          pausedIntervals := t.pausedIntervals.dropLast ++ [⟨iv.start, now⟩] }
        let sess' :=
          if s.aliasLast then
            { sess with pausedIntervals := sess.pausedIntervals.dropLast ++ [⟨iv.start, now⟩] }
          else sess
        persistPausedSnapshot
          { s with timerState := timer', currentSession := some sess' }
      else persistPausedSnapshot { s with timerState := { t with isRunning := true } }
    | none => persistPausedSnapshot { s with timerState := { t with isRunning := true } }
  | _, _ => s

/-- `addLectureSession` from `lectureSessionStorage.ts`: append to the
stored array, and clear the paused snapshot when it refers to the same
session id. -/
def addLectureSession (s : SystemState) (sess : LectureSession) : SystemState :=
  let s' := { s with sessions := s.sessions ++ [sess] }
  match s.pausedSlot with
  | some p => if p.session.id = sess.id then { s' with pausedSlot := none } else s'
  | none => s'

/-- Close the first interval with `end = 0` (the source's
`find(interval => interval.end === 0)` followed by mutation), returning
the updated list and the found interval's start. -/
def closeFirstOpen (now : Int) : List PausedInterval → List PausedInterval × Option Int
  | [] => ([], none)
  | iv :: rest =>
    if iv.«end» = 0 then (⟨iv.start, now⟩ :: rest, some iv.start)
    else
      let r := closeFirstOpen now rest
      (iv :: r.1, r.2)

/-- `stopLecture`.  `now` is the time read at the top of the method,
`nowInner` the one read inside the `pauseLecture` call it makes when
the timer is still running. -/
def stopLecture (s : SystemState) (now nowInner : Int) :
    SystemState × Option LectureSession :=
  match s.currentSession with
  | none => (s, none)
  | some _ =>
    let s1 := if s.timerState.isRunning then pauseLecture s nowInner else s
    match s1.currentSession with
    | none => (s1, none)
    | some sess1 =>
      let closed := closeFirstOpen now s1.timerState.pausedIntervals
      let timer2 := { s1.timerState with
        pausedIntervals := closed.1,
        pausedTime := s1.timerState.pausedTime +
          (match closed.2 with | some a => now - a | none => 0) }
      let completed := { sess1 with
        completedAt := some now, pausedIntervals := timer2.pausedIntervals }
      let s2 := addLectureSession
        { s1 with timerState := timer2, currentSession := some completed } completed
      ({ s2 with
          currentSession := none,
          timerState := ⟨false, none, 0, []⟩,
          checkedItemIds := [],
          aliasLast := false,
          pausedSlot := none }, some completed)

/-- `logItemCovered`. -/
def logItemCovered (s : SystemState) (itemId : String) (now : Int) : SystemState :=
  match s.currentSession with
  | none => s
  | some sess =>
    let sess' := { sess with
      itemTimestamps :=
        sess.itemTimestamps.filter (fun e => e.itemId ≠ itemId) ++ [⟨itemId, now⟩] }
    persistPausedSnapshot
      { s with
        currentSession := some sess',
        checkedItemIds := insertOnce s.checkedItemIds itemId }

/-- `removeItemTimestamp`. -/
def removeItemTimestamp (s : SystemState) (itemId : String) : SystemState :=
  match s.currentSession with
  | none => s
  | some sess =>
    let sess' := { sess with
      itemTimestamps := sess.itemTimestamps.filter (fun e => e.itemId ≠ itemId) }
    persistPausedSnapshot
      { s with
        currentSession := some sess',
        checkedItemIds := s.checkedItemIds.filter (fun y => y ≠ itemId) }

/-- `restorePausedLecture`: adopt the snapshot; when it was saved while
running, force the state to paused by opening a new interval now. -/
def restorePausedLecture (s : SystemState) (now : Int) : SystemState × Bool :=
  match s.pausedSlot with
  | none => (s, false)
  | some snap =>
    let timer := snap.timer
    let checked := dedupKeepFirst snap.checkedItemIds
    if timer.isRunning then
      ({ s with
          currentSession := some snap.session,
          timerState := { timer with
            isRunning := false,
            pausedIntervals := timer.pausedIntervals ++ [⟨now, 0⟩] },
          checkedItemIds := checked,
          aliasLast := false }, true)
    else
      ({ s with
          currentSession := some snap.session,
          timerState := timer,
          checkedItemIds := checked,
          aliasLast := false }, true)

/-- `getElapsedTime`: a pure read of the timer state. -/
def getElapsedTime (s : SystemState) (now : Int) : Int :=
  match s.timerState.startTime with
  | none => 0
  | some st =>
    let totalElapsed := now - st
    let pausedTime := s.timerState.pausedTime +
      (if s.timerState.isRunning then 0
       else
         match s.timerState.pausedIntervals.getLast? with
         | some iv => if iv.«end» = 0 then now - iv.start else 0
         | none => 0)
    totalElapsed - pausedTime

/-- `getElapsedTime` as a state transformer, to express that the
observation leaves the engine untouched. -/
def getElapsedTimeOp (s : SystemState) (now : Int) : SystemState × Int :=
  (s, getElapsedTime s now)

/-- `getCurrentSession` (the source returns a shallow copy). -/
def getCurrentSession (s : SystemState) : Option LectureSession :=
  s.currentSession

/-- `loadPausedLectureState` from `lectureSessionStorage.ts`: read the
`lecture_current_session` slot. -/
def loadPausedLectureState (s : SystemState) : Option PausedLectureState :=
  s.pausedSlot

/-- Modelled from the spec: `getElapsedTime()` is specified as
"`now - startTime - pausedTime - (openIntervalDuration if currently
paused)`", returning 0 when no session was started; the open interval
is the most recent one when it still has the `end = 0` sentinel. -/
def specElapsedTime (t : TimerState) (now : Int) : Int :=
  match t.startTime with
  | none => 0
  | some st =>
    let openDur :=
      match t.pausedIntervals.getLast? with
      | some iv => if t.isRunning = false ∧ iv.«end» = 0 then now - iv.start else 0
      | none => 0
    now - st - t.pausedTime - openDur

/-- A batch of `logItemCovered` calls, one per `(itemId, now)` pair. -/
def applyLogs (s : SystemState) (logs : List (String × Int)) : SystemState :=
  logs.foldl (fun st p => logItemCovered st p.1 p.2) s

/-! ## Engine operations and reachability -/

/-- One externally triggered engine operation, with the clock readings
it performs. `restart` models a process restart: the service's fields
are re-initialized by module load while the storage slots survive. -/
inductive Op : Type where
  | start (outline : Outline) (now : Int)
  | pause (now : Int)
  | resume (now : Int)
  | stop (now nowInner : Int)
  | logItem (itemId : String) (now : Int)
  | removeItem (itemId : String)
  | restore (now : Int)
  | restart

/-- The state transition of each operation (results projected away). -/
def step (s : SystemState) : Op → SystemState
  | .start outline now => (startLecture s outline now).1
  | .pause now => pauseLecture s now
  | .resume now => resumeLecture s now
  | .stop now nowInner => (stopLecture s now nowInner).1
  | .logItem itemId now => logItemCovered s itemId now
  | .removeItem itemId => removeItemTimestamp s itemId
  | .restore now => (restorePausedLecture s now).1
  | .restart => { initSystem with pausedSlot := s.pausedSlot, sessions := s.sessions }

/-- States reachable from the freshly loaded engine with empty storage. -/
def Reachable (s : SystemState) : Prop :=
  ∃ ops : List Op, s = ops.foldl step initSystem

/-- All clock readings of an operation are positive (epoch-millisecond
timestamps). -/
def opTimePos : Op → Bool
  | .start _ now => decide (0 < now)
  | .pause now => decide (0 < now)
  | .resume now => decide (0 < now)
  | .stop now nowInner => decide (0 < now) && decide (0 < nowInner)
  | .logItem _ now => decide (0 < now)
  | .removeItem _ => true
  | .restore now => decide (0 < now)
  | .restart => true

/-- Reachability through operations whose clock readings are positive. -/
def ReachablePos (s : SystemState) : Prop :=
  ∃ ops : List Op, ops.all opTimePos = true ∧ s = ops.foldl step initSystem

/-! ## Engine invariants -/

/-- A session's covered-item log names each item id at most once. -/
def sessionIdsNodup (sess : LectureSession) : Prop :=
  (sess.itemTimestamps.map ItemTimestamp.itemId).Nodup

/-- The at-most-one-timestamp-per-item invariant, on the live session
and on the persisted snapshot (the latter is what makes the invariant
survive `restorePausedLecture`). -/
def timestampsInv (s : SystemState) : Prop :=
  (∀ sess, s.currentSession = some sess → sessionIdsNodup sess) ∧
  (∀ snap, s.pausedSlot = some snap → sessionIdsNodup snap.session)

/-- Shape of a well-formed timer interval list: only the last interval
may carry the `end = 0` open sentinel, and none may when running. -/
def timerOpenOK (t : TimerState) : Prop :=
  (t.isRunning = true → ∀ iv ∈ t.pausedIntervals, iv.«end» ≠ 0) ∧
  (∀ iv ∈ t.pausedIntervals.dropLast, iv.«end» ≠ 0)

/-- `timerOpenOK` for the live timer and the persisted snapshot. -/
def openIntervalsInv (s : SystemState) : Prop :=
  timerOpenOK s.timerState ∧ (∀ snap, s.pausedSlot = some snap → timerOpenOK snap.timer)

/-! # Theorems -/

/-! ## String and list helper lemmas -/

theorem stringDataAppend (a b : String) : (a ++ b).data = a.data ++ b.data := by
  cases a
  cases b
  rfl

theorem dropWhileAppendAll {p : Char → Bool} {l₁ l₂ : List Char}
    (h : ∀ a ∈ l₁, p a = true) : (l₁ ++ l₂).dropWhile p = l₂.dropWhile p := by
  induction l₁ with
  | nil => rfl
  | cons x xs ih =>
    have hx : p x = true := h x (List.mem_cons_self x xs)
    simp only [List.cons_append, List.dropWhile_cons, hx, if_true]
    exact ih (fun a ha => h a (List.mem_cons_of_mem x ha))

theorem takeWhileAppendAll {p : Char → Bool} {l₁ l₂ : List Char}
    (h : ∀ a ∈ l₁, p a = true) : (l₁ ++ l₂).takeWhile p = l₁ ++ l₂.takeWhile p := by
  induction l₁ with
  | nil => rfl
  | cons x xs ih =>
    have hx : p x = true := h x (List.mem_cons_self x xs)
    simp only [List.cons_append, List.takeWhile_cons, hx, if_true]
    rw [ih (fun a ha => h a (List.mem_cons_of_mem x ha))]

theorem dropWhileIdem (p : Char → Bool) (l : List Char) :
    (l.dropWhile p).dropWhile p = l.dropWhile p := by
  induction l with
  | nil => rfl
  | cons x xs ih =>
    by_cases hx : p x = true
    · simpa [List.dropWhile_cons, hx] using ih
    · have hx' : p x = false := by simpa using hx
      simp [List.dropWhile_cons, hx']

theorem headDropWhileNot {p : Char → Bool} {l : List Char} {a : Char}
    (h : (l.dropWhile p).head? = some a) : p a = false := by
  induction l with
  | nil => simp [List.dropWhile] at h
  | cons x xs ih =>
    by_cases hx : p x = true
    · rw [List.dropWhile_cons, if_pos hx] at h
      exact ih h
    · have hx' : p x = false := by simpa using hx
      rw [List.dropWhile_cons, if_neg (by simp [hx'])] at h
      simp only [List.head?_cons, Option.some.injEq] at h
      rwa [← h]

theorem dropWhileNeNil {p : Char → Bool} {l : List Char} {a : Char}
    (hl : l.getLast? = some a) (ha : p a = false) : l.dropWhile p ≠ [] := by
  intro hcon
  have hall := List.dropWhile_eq_nil_iff.mp hcon
  have hmem : a ∈ l := List.mem_of_mem_getLast? hl
  rw [hall a hmem] at ha
  exact Bool.noConfusion ha

theorem memOfDropWhile {p : Char → Bool} {l : List Char} {x : Char}
    (h : x ∈ l.dropWhile p) : x ∈ l :=
  (List.dropWhile_sublist p (l := l)).mem h

/-- `jsTrimEnd` is a prefix of its input. -/
theorem jsTrimEndPrefix (l : List Char) : jsTrimEnd l <+: l := by
  have h := List.dropWhile_suffix (l := l.reverse) jsIsSpace
  have h2 := List.reverse_prefix.mpr (by simpa using h)
  simpa [jsTrimEnd] using h2

theorem headOfPrefix {l₁ l₂ : List Char} (h : l₁ <+: l₂) (hne : l₁ ≠ []) :
    l₂.head? = l₁.head? := by
  obtain ⟨t, rfl⟩ := h
  cases l₁ with
  | nil => exact absurd rfl hne
  | cons x xs => rfl

/-- The head of a non-empty fully trimmed list is the head after
trimming only the start. -/
theorem jsTrimHead {l : List Char} (h : jsTrim l ≠ []) :
    (jsTrimStart l).head? = (jsTrim l).head? := by
  have h2 := headOfPrefix (jsTrimEndPrefix (jsTrimStart l)) (by simpa [jsTrim] using h)
  simpa [jsTrim] using h2

/-- The last character of a trimmed list is never whitespace. -/
theorem jsTrimLastNotSpace {l : List Char} {a : Char}
    (h : (jsTrim l).getLast? = some a) : jsIsSpace a = false := by
  have h2 : ((jsTrimStart l).reverse.dropWhile jsIsSpace).head? = some a := by
    have h3 := List.head?_reverse (jsTrim l)
    rw [← h3] at h
    simpa [jsTrim, jsTrimEnd] using h
  exact headDropWhileNot h2

theorem uniRangeToLower (c : Char) (h1 : '\u2000' ≤ c) : c.toLower = c := by
  have h3 : (8192 : Nat) ≤ c.toNat := by
    have h4 := (Char.le_def).mp h1
    rw [UInt32.le_def] at h4
    simpa using h4
  simp [Char.toLower]
  omega

/-- JavaScript whitespace characters are unchanged by `toLowerCase`. -/
theorem jsIsSpaceToLower {c : Char} (h : jsIsSpace c = true) : c.toLower = c := by
  simp only [jsIsSpace, Bool.or_eq_true, decide_eq_true_eq, Bool.and_eq_true] at h
  rcases h with ((((((((((((((h) | h) | h) | h) | h) | h) | h) | h) | ⟨h, _⟩) | h) | h) | h) | h) | h) | h <;>
    first
      | (subst h; decide)
      | (exact uniRangeToLower c h)

/-! ## Claim C8: end-to-end example -/

/-- C8: parsing `"# My Outline\n- Item 1\n- Item 2\n  - Subitem 2.1\n- [ ] Todo Item"`
yields the title `"My Outline"`, zero errors, and flattening the parsed
items gives exactly the four titles `"Item 1"`, `"Item 2"`,
`"  Subitem 2.1"` (depth 1 encoded as two leading spaces) and
`"Todo Item"`, in order. -/
theorem C8_example_end_to_end :
    (parseMarkdownList "# My Outline\n- Item 1\n- Item 2\n  - Subitem 2.1\n- [ ] Todo Item").title
        = some "My Outline" ∧
    (parseMarkdownList "# My Outline\n- Item 1\n- Item 2\n  - Subitem 2.1\n- [ ] Todo Item").errors
        = [] ∧
    (flattenMarkdownItems
        (parseMarkdownList "# My Outline\n- Item 1\n- Item 2\n  - Subitem 2.1\n- [ ] Todo Item").items).map
        OutFlatItem.title
      = ["Item 1", "Item 2", "  Subitem 2.1", "Todo Item"] := by
  decide

/-! ## Claim C2: todo-line classification -/

/-- C2 counterexample: the todo regex `/^-\s*\[([x\s])\]\s+(.+)$/` is
case-sensitive, so `"- [X] t"` does not match it; the line falls through
to the bullet pattern and is classified as a plain bullet item titled
`"[X] t"` with no `completed` field — not as a completed checklist item
as the claim states.  (The claim's "optional leading dash" is also wrong:
the regex requires the dash, cf. `C2_todo_requires_dash` below folded
into the amended theorem's hypotheses.) -/
theorem C2_counterexample :
    parseMarkdownLine "- [X] t" 0 =
      ⟨some ⟨"md_0", "[X] t", none, 0⟩, some false, none⟩ ∧
    (parseMarkdownLine "[x] t" 0).item = none := by
  decide

/-- C2 (amended): for every line whose trimmed form decomposes as a
required `'-'`, optional whitespace, `'['`, a character that is a
lowercase `'x'` or whitespace, `']'`, required whitespace and a
non-empty line-terminator-free rest, the classifier returns a checklist
item whose `completed` field is true iff the bracket character is `'x'`,
whose title is the trimmed rest and whose level comes from the line's
indentation. -/
theorem C2_todo_classification (line : String) (n : Nat) (ws ws' rest : List Char) (c : Char)
    (hdecomp : (jsTrimS line).data = '-' :: (ws ++ '[' :: c :: ']' :: (ws' ++ rest)))
    (hws : ∀ a ∈ ws, jsIsSpace a = true)
    (hws1 : ∀ a ∈ ws', jsIsSpace a = true) (hwsne : ws' ≠ [])
    (hrest : rest ≠ []) (hdot : ∀ a ∈ rest, jsIsDot a = true)
    (hc : c = 'x' ∨ jsIsSpace c = true) :
    (parseMarkdownLine line n).isChecklist = some true ∧
    (parseMarkdownLine line n).item =
      some ⟨mdId n, jsTrimS (String.mk rest), some (decide (c = 'x')),
        getIndentationLevel line⟩ := by
  -- the last character of the trimmed line (= of `rest`) is not whitespace
  obtain ⟨a, ha⟩ : ∃ a, rest.getLast? = some a := by
    cases hr : rest.getLast? with
    | none => exact absurd (List.getLast?_eq_none_iff.mp hr) hrest
    | some a => exact ⟨a, rfl⟩
  have hlastCons : ((jsTrimS line).data).getLast? = some a := by
    rw [hdecomp,
      show ('-' :: (ws ++ '[' :: c :: ']' :: (ws' ++ rest)))
          = ('-' :: ws ++ '[' :: c :: ']' :: ws') ++ rest by simp]
    rw [List.getLast?_append]
    simp [ha]
  have hansp : jsIsSpace a = false := jsTrimLastNotSpace (l := line.data) hlastCons
  have htrimne : (jsTrimS line).data ≠ [] := by rw [hdecomp]; simp
  have hsne : ¬ (jsTrimS line = "") := by
    intro he
    rw [he] at htrimne
    exact htrimne rfl
  -- the todo matcher fires on the decomposition
  have hdropr2 : (ws' ++ rest).dropWhile jsIsSpace = rest.dropWhile jsIsSpace :=
    dropWhileAppendAll hws1
  have htlne : rest.dropWhile jsIsSpace ≠ [] := dropWhileNeNil ha hansp
  have htlall : (rest.dropWhile jsIsSpace).all jsIsDot = true := by
    rw [List.all_eq_true]
    intro x hx
    exact hdot x (memOfDropWhile hx)
  have htail : tailCapture (ws' ++ rest) = some (rest.dropWhile jsIsSpace) := by
    have htw : (ws' ++ rest).takeWhile jsIsSpace = ws' ++ rest.takeWhile jsIsSpace :=
      takeWhileAppendAll hws1
    unfold tailCapture
    rw [htw, hdropr2]
    rw [if_neg (by simp [hwsne])]
    rw [if_pos htlne, if_pos htlall]
  have hdrop0 : (ws ++ '[' :: c :: ']' :: (ws' ++ rest)).dropWhile jsIsSpace
      = '[' :: c :: ']' :: (ws' ++ rest) := by
    rw [dropWhileAppendAll hws, List.dropWhile_cons, if_neg (by decide)]
  have htodo : todoMatch (jsTrimS line).data = some (c, rest.dropWhile jsIsSpace) := by
    rw [hdecomp]
    simp only [todoMatch, hdrop0, if_pos hc, htail]
  have htitle : jsTrimS (String.mk (rest.dropWhile jsIsSpace)) = jsTrimS (String.mk rest) := by
    show String.mk (jsTrim (rest.dropWhile jsIsSpace)) = String.mk (jsTrim rest)
    simp [jsTrim, jsTrimStart, dropWhileIdem]
  have hcompl : (decide (c.toLower = 'x')) = (decide (c = 'x')) := by
    rcases hc with rfl | hcs
    · decide
    · rw [jsIsSpaceToLower hcs]
  constructor
  · simp only [parseMarkdownLine, if_neg hsne, htodo]
  · simp only [parseMarkdownLine, if_neg hsne, htodo, htitle, hcompl]

/-- Witness for `C2_todo_classification` at the line `"- [x] hello"`. -/
theorem C2_todo_classification_witness :
    (parseMarkdownLine "- [x] hello" 0).isChecklist = some true ∧
    (parseMarkdownLine "- [x] hello" 0).item =
      some ⟨mdId 0, jsTrimS (String.mk ['h', 'e', 'l', 'l', 'o']), some (decide ('x' = 'x')),
        getIndentationLevel "- [x] hello"⟩ :=
  C2_todo_classification "- [x] hello" 0 [' '] [' '] ['h', 'e', 'l', 'l', 'o'] 'x'
    (by decide) (by decide) (by decide) (by decide) (by decide) (by decide) (Or.inl rfl)

/-! ## Claim C5: getElapsedTime -/

theorem stopLectureResetsTimer (s : SystemState) (t t' : Int) (sess : LectureSession)
    (h : s.currentSession = some sess) :
    ((stopLecture s t t').1).timerState = ⟨false, none, 0, []⟩ := by
  cases hr : s.timerState.isRunning
  · simp only [stopLecture, h, hr, Bool.false_eq_true, if_false]
  · simp only [stopLecture, h, hr, if_true, pauseLecture, persistPausedSnapshot]

/-- C5: `getElapsedTime` mutates nothing, computes
`now - startTime - pausedTime` minus the still-open pause interval when
the timer is not running and the most recent interval is open (the
spec-side formula `specElapsedTime`), and returns 0 whenever no session
has been started — in particular right after `stopLecture` resets the
engine. -/
theorem C5_elapsed_pure (s : SystemState) (now : Int) :
    (getElapsedTimeOp s now).1 = s ∧
    getElapsedTime s now = specElapsedTime s.timerState now ∧
    (s.timerState.startTime = none → getElapsedTime s now = 0) ∧
    (∀ t t' m sess, s.currentSession = some sess →
      getElapsedTime (stopLecture s t t').1 m = 0) := by
  refine ⟨rfl, ?_, ?_, ?_⟩
  · cases h : s.timerState.startTime with
    | none => simp [getElapsedTime, specElapsedTime, h]
    | some st =>
      cases hr : s.timerState.isRunning
      · cases hl : s.timerState.pausedIntervals.getLast? with
        | none => simp [getElapsedTime, specElapsedTime, h, hr, hl]
        | some iv =>
          by_cases hiv : iv.«end» = 0
          · simp [getElapsedTime, specElapsedTime, h, hr, hl, hiv]
            omega
          · simp [getElapsedTime, specElapsedTime, h, hr, hl, hiv]
      · cases hl : s.timerState.pausedIntervals.getLast? with
        | none => simp [getElapsedTime, specElapsedTime, h, hr, hl]
        | some iv => simp [getElapsedTime, specElapsedTime, h, hr, hl]
  · intro h
    simp [getElapsedTime, h]
  · intro t t' m sess h
    have hreset := stopLectureResetsTimer s t t' sess h
    simp [getElapsedTime, hreset]

/-- Witness for `C5_elapsed_pure` at a concrete started state. -/
theorem C5_elapsed_pure_witness :
    getElapsedTime ((startLecture initSystem ⟨"o1", "T", []⟩ 5).1) 9
        = specElapsedTime ((startLecture initSystem ⟨"o1", "T", []⟩ 5).1).timerState 9 ∧
    getElapsedTime
        (stopLecture ((startLecture initSystem ⟨"o1", "T", []⟩ 5).1) 7 7).1 9 = 0 := by
  have h := C5_elapsed_pure ((startLecture initSystem ⟨"o1", "T", []⟩ 5).1) 9
  exact ⟨h.2.1, h.2.2.2 7 7 9 _ rfl⟩

/-! ## Claim C1: pause accounting -/

/-- C1 counterexample: after start at 10, pause at 20, resume at 30 and
stop at 40, the completed session does NOT have exactly one paused
interval — `stopLecture` first pauses the running timer, leaving a
second, zero-length interval `{start: 40, end: 40}` beside
`{start: 20, end: 30}`. -/
theorem C1_counterexample :
    ((stopLecture (resumeLecture (pauseLecture
          ((startLecture initSystem ⟨"o1", "T", []⟩ 10).1) 20) 30) 40 40).2).map
        (fun sess => sess.pausedIntervals) = some [⟨20, 30⟩, ⟨40, 40⟩] ∧
    ¬ (((stopLecture (resumeLecture (pauseLecture
          ((startLecture initSystem ⟨"o1", "T", []⟩ 10).1) 20) 30) 40 40).2).map
        (fun sess => sess.pausedIntervals) = some [⟨20, 30⟩]) := by
  decide

/-- C1 (amended): for a session started at `T0`, paused at `T1`,
resumed at `T2` and stopped at `T3` (with `0 ≤ T0 < T1 < T2 < T3`),
`getElapsedTime` evaluated at `T3` before the stop returns
`(T3 - T0) - (T2 - T1)`, and the completed session returned by
`stopLecture` carries TWO paused intervals: `{start: T1, end: T2}` and
the zero-length `{start: T3, end: T3}` appended by stop's pause-first
logic. -/
theorem C1_pause_accounting (outline : Outline) (T0 T1 T2 T3 : Int)
    (h0 : 0 ≤ T0) (h01 : T0 < T1) (h12 : T1 < T2) (_h23 : T2 < T3) :
    getElapsedTime
        (resumeLecture (pauseLecture ((startLecture initSystem outline T0).1) T1) T2) T3
        = (T3 - T0) - (T2 - T1) ∧
    ∃ sess,
      (stopLecture
          (resumeLecture (pauseLecture ((startLecture initSystem outline T0).1) T1) T2)
          T3 T3).2 = some sess ∧
      sess.pausedIntervals = [⟨T1, T2⟩, ⟨T3, T3⟩] ∧
      sess.completedAt = some T3 := by
  have hT2 : ¬ ((T2 : Int) = 0) := by omega
  have hs3 : resumeLecture (pauseLecture ((startLecture initSystem outline T0).1) T1) T2
      = ⟨⟨true, some T0, 0 + (T2 - T1), [⟨T1, T2⟩]⟩,
         some ⟨"session_" ++ toString T0, outline.id, T0, [⟨T1, T2⟩], [], none⟩,
         [], true,
         some ⟨⟨"session_" ++ toString T0, outline.id, T0, [⟨T1, T2⟩], [], none⟩,
               ⟨true, some T0, 0 + (T2 - T1), [⟨T1, T2⟩]⟩, []⟩,
         []⟩ := rfl
  have hclose : closeFirstOpen T3 [⟨T1, T2⟩, ⟨T3, 0⟩]
      = ([⟨T1, T2⟩, ⟨T3, T3⟩], some T3) := by
    simp [closeFirstOpen, hT2]
  constructor
  · rw [hs3]
    show (T3 - T0) - (0 + (T2 - T1) + 0) = (T3 - T0) - (T2 - T1)
    omega
  · rw [hs3]
    refine ⟨⟨"session_" ++ toString T0, outline.id, T0, [⟨T1, T2⟩, ⟨T3, T3⟩], [], some T3⟩,
      ?_, rfl, rfl⟩
    have hstop : (stopLecture
        ⟨⟨true, some T0, 0 + (T2 - T1), [⟨T1, T2⟩]⟩,
         some ⟨"session_" ++ toString T0, outline.id, T0, [⟨T1, T2⟩], [], none⟩,
         [], true,
         some ⟨⟨"session_" ++ toString T0, outline.id, T0, [⟨T1, T2⟩], [], none⟩,
               ⟨true, some T0, 0 + (T2 - T1), [⟨T1, T2⟩]⟩, []⟩,
         []⟩ T3 T3).2
        = some ⟨"session_" ++ toString T0, outline.id, T0,
            (closeFirstOpen T3 [⟨T1, T2⟩, ⟨T3, 0⟩]).1, [], some T3⟩ := rfl
    rw [hstop, hclose]

/-- Witness for `C1_pause_accounting` at `T0 = 10 < 20 < 30 < 40`. -/
theorem C1_pause_accounting_witness :
    getElapsedTime
        (resumeLecture (pauseLecture
          ((startLecture initSystem ⟨"o1", "T", []⟩ 10).1) 20) 30) 40 = (40 - 10) - (30 - 20) ∧
    ∃ sess,
      (stopLecture (resumeLecture (pauseLecture
          ((startLecture initSystem ⟨"o1", "T", []⟩ 10).1) 20) 30) 40 40).2 = some sess ∧
      sess.pausedIntervals = [⟨20, 30⟩, ⟨40, 40⟩] ∧
      sess.completedAt = some 40 :=
  C1_pause_accounting ⟨"o1", "T", []⟩ 10 20 30 40
    (by decide) (by decide) (by decide) (by decide)

/-! ## Claim C9: validateMarkdownItems -/

mutual

theorem validateItemShape : ∀ (it : ParsedMarkdownItem) (e : String), e ∈ validateItem it →
    ∃ i, e = "Item with ID " ++ i ++ " has empty title"
  | .mk i t no co lv cs, e, he => by
    rw [validateItem] at he
    rcases List.mem_append.mp he with h1 | h2
    · refine ⟨i, ?_⟩
      by_cases hc : (t = "" ∨ jsTrimS t = "")
      · rw [if_pos hc] at h1
        simpa using h1
      · rw [if_neg hc] at h1
        simp at h1
    · by_cases hcs : 0 < cs.length
      · rw [if_pos hcs] at h2
        exact validateListShape cs e h2
      · rw [if_neg hcs] at h2
        simp at h2

theorem validateListShape : ∀ (l : List ParsedMarkdownItem) (e : String), e ∈ validateList l →
    ∃ i, e = "Item with ID " ++ i ++ " has empty title"
  | [], e, he => by simp [validateList] at he
  | it :: rest, e, he => by
    rw [validateList] at he
    rcases List.mem_append.mp he with h1 | h2
    · exact validateItemShape it e h1
    · exact validateListShape rest e h2

end

mutual

theorem errMemItem : ∀ (x it : ParsedMarkdownItem), x ∈ selfAndDescendants it →
    jsTrimS x.title = "" →
    ("Item with ID " ++ x.id ++ " has empty title") ∈ validateItem it
  | x, .mk i t no co lv cs, hx, hblank => by
    rw [selfAndDescendants] at hx
    rw [validateItem]
    rcases List.mem_cons.mp hx with rfl | hmem
    · apply List.mem_append.mpr
      left
      simp only [ParsedMarkdownItem.title] at hblank
      simp only [ParsedMarkdownItem.id]
      rw [if_pos (Or.inr hblank)]
      simp
    · apply List.mem_append.mpr
      right
      have hcs : 0 < cs.length := by
        cases cs with
        | nil => simp [allItems] at hmem
        | cons a b => simp
      rw [if_pos hcs]
      exact errMemList x cs hmem hblank

theorem errMemList : ∀ (x : ParsedMarkdownItem) (l : List ParsedMarkdownItem),
    x ∈ allItems l → jsTrimS x.title = "" →
    ("Item with ID " ++ x.id ++ " has empty title") ∈ validateList l
  | x, [], hx, _ => by simp [allItems] at hx
  | x, it :: rest, hx, hblank => by
    rw [allItems] at hx
    rcases List.mem_append.mp hx with h1 | h2
    · rw [validateList]
      exact List.mem_append.mpr (Or.inl (errMemItem x it h1 hblank))
    · rw [validateList]
      exact List.mem_append.mpr (Or.inr (errMemList x rest h2 hblank))

end

theorem itemErrNeNoItems (i : String) :
    ("Item with ID " ++ i ++ " has empty title") ≠ "No valid list items found" := by
  intro h
  have h2 : ("Item with ID " ++ i ++ " has empty title").data.head? = some 'I' := by
    obtain ⟨d⟩ := i
    rfl
  rw [h] at h2
  exact absurd h2 (by decide)

/-- C9: `validateMarkdownItems` emits `"No valid list items found"` iff
the top-level item sequence is empty; for every item at every nesting
depth whose title is empty or whitespace-only it emits
`"Item with ID {id} has empty title"`; and `isValid` holds iff the error
list is empty. -/
theorem C9_validate (items : List ParsedMarkdownItem) :
    (("No valid list items found" ∈ (validateMarkdownItems items).2) ↔ items = []) ∧
    (∀ it, it ∈ allItems items → jsTrimS it.title = "" →
      ("Item with ID " ++ it.id ++ " has empty title") ∈ (validateMarkdownItems items).2) ∧
    ((validateMarkdownItems items).1 = true ↔ (validateMarkdownItems items).2 = []) := by
  refine ⟨⟨?_, ?_⟩, ?_, ?_⟩
  · intro hmem
    by_contra hne
    have hlen : ¬ (items.length = 0) := by simpa [List.length_eq_zero] using hne
    simp only [validateMarkdownItems, if_neg hlen, List.nil_append] at hmem
    obtain ⟨i, hi⟩ := validateListShape items _ hmem
    exact itemErrNeNoItems i hi.symm
  · intro he
    subst he
    simp [validateMarkdownItems, validateList]
  · intro it hmem hblank
    have hv := errMemList it items hmem hblank
    simp only [validateMarkdownItems]
    exact List.mem_append.mpr (Or.inr hv)
  · simp only [validateMarkdownItems]
    simp [List.length_eq_zero]

/-- Witness for `C9_validate`: a whitespace-only title at nesting depth
1 is reported, and the empty input is flagged invalid. -/
theorem C9_validate_witness :
    ("Item with ID " ++ (ParsedMarkdownItem.mk "b" " " none none 1 []).id ++ " has empty title")
        ∈ (validateMarkdownItems [.mk "a" "ok" none none 0 [.mk "b" " " none none 1 []]]).2 ∧
    (("No valid list items found" ∈ (validateMarkdownItems ([] : List ParsedMarkdownItem)).2)
        ↔ ([] : List ParsedMarkdownItem) = []) :=
  ⟨(C9_validate [.mk "a" "ok" none none 0 [.mk "b" " " none none 1 []]]).2.1 _
      (by decide) (by decide),
   (C9_validate []).1⟩

/-! ## Main-pass decomposition lemmas for C3 and C10 -/

theorem runLinesFromAppend (st : ParseState) (n : Nat) (xs ys : List String) :
    runLinesFrom st n (xs ++ ys)
      = runLinesFrom (runLinesFrom st n xs) (n + xs.length) ys := by
  induction xs generalizing st n with
  | nil => simp [runLinesFrom]
  | cons l rest ih =>
    show runLinesFrom (processLine st n l) (n + 1) (rest ++ ys)
        = runLinesFrom (runLinesFrom (processLine st n l) (n + 1) rest)
            (n + (l :: rest).length) ys
    rw [ih, List.length_cons, show n + (rest.length + 1) = n + 1 + rest.length by omega]

theorem processLineErrors (st : ParseState) (i : Nat) (l : String) :
    ∃ e, (processLine st i l).errors = st.errors ++ e := by
  cases hpe : (parseMarkdownLine l i).error with
  | none =>
    cases hpi : (parseMarkdownLine l i).item with
    | none => exact ⟨[], by simp [processLine, hpe, hpi]⟩
    | some item =>
      refine ⟨[], ?_⟩
      simp only [processLine, hpe, hpi]
      split <;> simp
  | some e =>
    cases hpi : (parseMarkdownLine l i).item with
    | none =>
      by_cases hc : nestedUnderChecklist st.itemStack (getIndentationLevel l) = true ∧
          potentialListMarker l = true
      · exact ⟨[], by simp [processLine, hpe, hpi, hc.1, hc.2]⟩
      · exact ⟨[e], by simp [processLine, hpe, hpi, hc]⟩
    | some item =>
      refine ⟨[e], ?_⟩
      simp only [processLine, hpe, hpi]
      split
      · simp_all
      · split <;> rfl

theorem runLinesErrorsMono (ys : List String) (st : ParseState) (n : Nat) :
    ∃ e, (runLinesFrom st n ys).errors = st.errors ++ e := by
  induction ys generalizing st n with
  | nil => exact ⟨[], by simp [runLinesFrom]⟩
  | cons l rest ih =>
    obtain ⟨e1, he1⟩ := processLineErrors st n l
    obtain ⟨e2, he2⟩ := ih (processLine st n l) (n + 1)
    exact ⟨e1 ++ e2, by simp [runLinesFrom, he2, he1]⟩

/-- A trimmed line that starts with a list marker but matches neither
the todo nor the bullet pattern classifies as an invalid-format error. -/
theorem parseLineMalformed (line : String) (i : Nat)
    (hne : ¬ (jsTrimS line = ""))
    (hhead : (jsTrimS line).data.head? = some '-' ∨ (jsTrimS line).data.head? = some '*')
    (htodo : todoMatch (jsTrimS line).data = none)
    (hbullet : bulletMatch (jsTrimS line).data = none) :
    parseMarkdownLine line i = ⟨none, none, some (mkInvalidErr i (jsTrimS line))⟩ := by
  have h1 : ¬ (¬ (jsTrimS line).data.head? = some '-' ∧
      ¬ (jsTrimS line).data.head? = some '*' ∧ getIndentationLevel line = 0) := by
    rcases hhead with h | h <;> simp [h]
  simp only [parseMarkdownLine, if_neg hne, htodo, hbullet, if_neg h1, if_pos hhead]

theorem potentialMarkerOfTrim (line : String)
    (hhead : (jsTrimS line).data.head? = some '-' ∨ (jsTrimS line).data.head? = some '*') :
    potentialListMarker line = true := by
  have hne : jsTrim line.data ≠ [] := by
    intro hc
    have : (jsTrimS line).data = [] := hc
    rcases hhead with h | h <;> (rw [this] at h; exact Option.noConfusion h)
  have hh := jsTrimHead (l := line.data) hne
  have : (jsTrimStartS line).data.head? = (jsTrimS line).data.head? := hh
  rcases hhead with h | h <;> simp [potentialListMarker, this, h]

/-- On a malformed marker line the main loop leaves everything but the
error list unchanged, appending the error exactly when the
checklist-ancestor suppression does not fire. -/
theorem processLineMalformed (st : ParseState) (i : Nat) (line : String)
    (hml : parseMarkdownLine line i = ⟨none, none, some (mkInvalidErr i (jsTrimS line))⟩)
    (hmark : potentialListMarker line = true) :
    processLine st i line = { st with errors := st.errors ++
      (if nestedUnderChecklist st.itemStack (getIndentationLevel line) = true then []
       else [mkInvalidErr i (jsTrimS line)]) } := by
  simp only [processLine, hml]
  by_cases hsup : nestedUnderChecklist st.itemStack (getIndentationLevel line) = true
  · simp [hsup, hmark]
  · have hsup' : nestedUnderChecklist st.itemStack (getIndentationLevel line) = false :=
      Bool.not_eq_true _ ▸ (by simpa using hsup)
    simp [hsup', hmark]

/-- Blank lines do not change the loop state. -/
theorem runLinesBlank (ls : List String) (st : ParseState) (n : Nat)
    (h : ∀ l ∈ ls, jsTrimS l = "") : runLinesFrom st n ls = st := by
  induction ls generalizing st n with
  | nil => rfl
  | cons l rest ih =>
    have hl : jsTrimS l = "" := h l (List.mem_cons_self l rest)
    have hpl : parseMarkdownLine l n = ⟨none, none, none⟩ := by
      simp only [parseMarkdownLine, if_pos hl]
    have hstep : processLine st n l = st := by
      simp [processLine, hpl]
    rw [runLinesFrom, hstep]
    exact ih st (n + 1) (fun x hx => h x (List.mem_cons_of_mem l hx))

/-- The error-contribution decomposition shared by C3 and C10: the
parse errors split around a malformed marker line's contribution, a
singleton error unless suppressed. -/
theorem invalidLineErrorsSplit (content : String) (i : Nat) (line : String)
    (hline : ((splitLines content.data).map String.mk)[i]? = some line)
    (hhead : (jsTrimS line).data.head? = some '-' ∨ (jsTrimS line).data.head? = some '*')
    (htodo : todoMatch (jsTrimS line).data = none)
    (hbullet : bulletMatch (jsTrimS line).data = none) :
    ∃ post,
      (parseMarkdownList content).errors =
        (runLinesFrom initParseState 0
            (((splitLines content.data).map String.mk).take i)).errors ++
        (if nestedUnderChecklist
            (runLinesFrom initParseState 0
              (((splitLines content.data).map String.mk).take i)).itemStack
            (getIndentationLevel line) = true then []
         else [mkInvalidErr i (jsTrimS line)]) ++ post := by
  have hne : ¬ (jsTrimS line = "") := by
    intro hc
    rcases hhead with h | h <;> (rw [hc] at h; exact Option.noConfusion h)
  obtain ⟨hlt, hget⟩ := List.getElem?_eq_some.mp hline
  have hdec : ((splitLines content.data).map String.mk)
      = ((splitLines content.data).map String.mk).take i ++
        line :: ((splitLines content.data).map String.mk).drop (i + 1) := by
    conv_lhs => rw [← List.take_append_drop i ((splitLines content.data).map String.mk)]
    congr 1
    rw [← hget]
    exact (List.get_drop_eq_drop _ i hlt).symm
  have herr0 : (parseMarkdownList content).errors
      = (runLinesFrom initParseState 0 ((splitLines content.data).map String.mk)).errors := rfl
  have hlen : (((splitLines content.data).map String.mk).take i).length = i := by
    rw [List.length_take]
    omega
  obtain ⟨post, hpost⟩ := runLinesErrorsMono
    (((splitLines content.data).map String.mk).drop (i + 1))
    (processLine (runLinesFrom initParseState 0
        (((splitLines content.data).map String.mk).take i)) i line) (i + 1)
  refine ⟨post, ?_⟩
  rw [herr0]
  conv_lhs => rw [hdec]
  rw [runLinesFromAppend, hlen, Nat.zero_add, runLinesFrom, hpost]
  rw [processLineMalformed _ _ _
    (parseLineMalformed line i hne hhead htodo hbullet) (potentialMarkerOfTrim line hhead)]

/-! ## Claim C3: invalid-list-format errors -/

/-- C3 counterexample: in the document
`"- [ ] A\n    - [x] B\n  -Invalid\n-[x] t"`, line 4 (`"-[x] t"`)
begins with `'-'` immediately followed by a non-space character and is
not nested, yet yields NO error — it is a valid todo line; and the
suppressed nested line 3 (`"  -Invalid"`) ends up in the notes of the
checklist item `B` (the most recently retained item), not of its
smaller-level stacked ancestor `A` as the claim states. -/
theorem C3_counterexample :
    (parseMarkdownList "- [ ] A\n    - [x] B\n  -Invalid\n-[x] t").errors = [] ∧
    (parseMarkdownList "- [ ] A\n    - [x] B\n  -Invalid\n-[x] t").items =
      [.mk "md_0" "A" none (some false) 0 [.mk "md_1" "B" (some "-Invalid") (some true) 2 []],
       .mk "md_3" "t" none (some true) 0 []] := by
  decide

/-- C3 (amended): for every document and every line whose trimmed form
starts with `'-'` or `'*'` but matches neither the todo pattern nor the
bullet pattern, the parse errors decompose as the errors of the
preceding lines, then that line's own contribution, then the later
lines' errors — and the line's contribution is exactly the singleton
`"Line {N}: Invalid list format: \"{trimmed}\""` (N = 1-based index),
unless the line is indented and the nearest earlier-stacked ancestor
with a smaller level is a checklist item, in which case the line
contributes no error (its text is left to the notes-attachment pass,
which folds it into the most recently retained item's notes, not
necessarily that ancestor's). -/
theorem C3_invalid_line_errors (content : String) (i : Nat) (line : String)
    (hline : ((splitLines content.data).map String.mk)[i]? = some line)
    (hhead : (jsTrimS line).data.head? = some '-' ∨ (jsTrimS line).data.head? = some '*')
    (htodo : todoMatch (jsTrimS line).data = none)
    (hbullet : bulletMatch (jsTrimS line).data = none) :
    ∃ post,
      (parseMarkdownList content).errors =
        (runLinesFrom initParseState 0
            (((splitLines content.data).map String.mk).take i)).errors ++
        (if nestedUnderChecklist
            (runLinesFrom initParseState 0
              (((splitLines content.data).map String.mk).take i)).itemStack
            (getIndentationLevel line) = true then []
         else [mkInvalidErr i (jsTrimS line)]) ++ post :=
  invalidLineErrorsSplit content i line hline hhead htodo hbullet

/-- Witness for `C3_invalid_line_errors` at the one-line document
`"-bad"`. -/
theorem C3_invalid_line_errors_witness :
    ∃ post,
      (parseMarkdownList "-bad").errors =
        (runLinesFrom initParseState 0
            (((splitLines ("-bad" : String).data).map String.mk).take 0)).errors ++
        (if nestedUnderChecklist
            (runLinesFrom initParseState 0
              (((splitLines ("-bad" : String).data).map String.mk).take 0)).itemStack
            (getIndentationLevel "-bad") = true then []
         else [mkInvalidErr 0 (jsTrimS "-bad")]) ++ post :=
  C3_invalid_line_errors "-bad" 0 "-bad" (by decide) (by decide) (by decide) (by decide)

/-! ## Claim C10: malformed first line as title -/

theorem extractTitleBlankPrefix (pre rest : List String)
    (h : ∀ l ∈ pre, jsTrimS l = "") :
    extractTitle (pre ++ rest) = extractTitle rest := by
  induction pre with
  | nil => rfl
  | cons l ls ih =>
    have hl : jsTrimS l = "" := h l (List.mem_cons_self l ls)
    show extractTitle (l :: (ls ++ rest)) = extractTitle rest
    rw [extractTitle, if_pos hl]
    exact ih (fun x hx => h x (List.mem_cons_of_mem l hx))

theorem todoNoneOfNoDashBracket (t : String)
    (hhead : t.data.head? = some '-' ∨ t.data.head? = some '*')
    (hndb : matchesDashBracket t = false) : todoMatch t.data = none := by
  rcases hhead with h | h
  · obtain ⟨rest, hr⟩ : ∃ rest, t.data = '-' :: rest := by
      cases hd : t.data with
      | nil => rw [hd] at h; exact absurd h (by simp)
      | cons x xs =>
        rw [hd] at h
        simp only [List.head?_cons, Option.some.injEq] at h
        exact ⟨xs, by rw [h]⟩
    have hb : ¬ ((rest.dropWhile jsIsSpace).head? = some '[') := by
      simp only [matchesDashBracket, hr] at hndb
      simpa using hndb
    rw [hr]
    unfold todoMatch
    split
    · rename_i r0 heq
      injection heq with h1 h2
      subst h2
      split
      · rename_i c r2 heq2
        exact absurd (by rw [heq2]; rfl) hb
      · rfl
    · rfl
  · obtain ⟨rest, hr⟩ : ∃ rest, t.data = '*' :: rest := by
      cases hd : t.data with
      | nil => rw [hd] at h; exact absurd h (by simp)
      | cons x xs =>
        rw [hd] at h
        simp only [List.head?_cons, Option.some.injEq] at h
        exact ⟨xs, by rw [h]⟩
    rw [hr]
    rfl

theorem bulletNoneOfNoWs (t : String)
    (hhead : t.data.head? = some '-' ∨ t.data.head? = some '*')
    (hnlsw : matchesListStartWs t = false) : bulletMatch t.data = none := by
  obtain ⟨m, rest, hr, hm⟩ : ∃ m rest, t.data = m :: rest ∧ (m = '-' ∨ m = '*') := by
    rcases hhead with h | h <;>
      (cases hd : t.data with
      | nil => rw [hd] at h; exact absurd h (by simp)
      | cons x xs =>
        rw [hd] at h
        simp only [List.head?_cons, Option.some.injEq] at h
        subst h
        first
          | exact ⟨'-', xs, rfl, Or.inl rfl⟩
          | exact ⟨'*', xs, rfl, Or.inr rfl⟩)
  rw [hr]
  show bulletMatch (m :: rest) = none
  have hred : bulletMatch (m :: rest)
      = if m = '-' ∨ m = '*' then tailCapture rest else none := by
    unfold bulletMatch
    split
    · rename_i m2 r0 heq
      injection heq with h1 h2
      subst h1
      subst h2
      rfl
    · rename_i heq
      exact absurd heq (by simp)
  rw [hred, if_pos hm]
  cases rest with
  | nil => rfl
  | cons c2 r2 =>
    have hc2 : jsIsSpace c2 = false := by
      simp only [matchesListStartWs, hr] at hnlsw
      have h2 : ¬ ((m = '-' ∨ m = '*') ∧ jsIsSpace c2 = true) := by simpa using hnlsw
      cases hj : jsIsSpace c2
      · rfl
      · exact absurd ⟨hm, hj⟩ h2
    have hws : (c2 :: r2).takeWhile jsIsSpace = [] := by
      rw [List.takeWhile_cons, if_neg (by simp [hc2])]
    simp [tailCapture, hws]

theorem headingNoneOfMarker (t : String)
    (hhead : t.data.head? = some '-' ∨ t.data.head? = some '*') :
    headingMatch t.data = none := by
  obtain ⟨m, rest, hr, hm⟩ : ∃ m rest, t.data = m :: rest ∧ (m = '-' ∨ m = '*') := by
    rcases hhead with h | h <;>
      (cases hd : t.data with
      | nil => rw [hd] at h; exact absurd h (by simp)
      | cons x xs =>
        rw [hd] at h
        simp only [List.head?_cons, Option.some.injEq] at h
        subst h
        first
          | exact ⟨'-', xs, rfl, Or.inl rfl⟩
          | exact ⟨'*', xs, rfl, Or.inr rfl⟩)
  rw [hr]
  rcases hm with rfl | rfl <;> rfl

/-- C10 counterexample: the claim predicts that the malformed first
line `"-[x]"` (starts with `'-'`, matches neither todo nor bullet nor
heading) becomes the document title; but `extractTitle` also refuses
lines matching `/^-\s*\[/`, so the parse result has NO title while
still reporting the invalid-format error. -/
theorem C10_counterexample :
    (parseMarkdownList "-[x]").title = none ∧
    (parseMarkdownList "-[x]").errors = ["Line 1: Invalid list format: \"-[x]\""] := by
  decide

/-- C10 (amended): if the first non-blank line's trimmed form starts
with `'-'` or `'*'`, does not have a whitespace character right after
that marker (`/^[-*]\s/` fails, hence it is not a bullet line), and does
not consist of `'-'` + optional whitespace + `'['` (`/^-\s*\[/` fails,
hence it is not a todo line), then the same line is simultaneously
adopted as the document title (its trimmed form) and reported by the
main pass as an `Invalid list format` error. -/
theorem C10_title_error_duality (content : String) (i : Nat) (line : String)
    (hline : ((splitLines content.data).map String.mk)[i]? = some line)
    (hblank : ∀ l ∈ (((splitLines content.data).map String.mk).take i), jsTrimS l = "")
    (hhead : (jsTrimS line).data.head? = some '-' ∨ (jsTrimS line).data.head? = some '*')
    (hnlsw : matchesListStartWs (jsTrimS line) = false)
    (hndb : matchesDashBracket (jsTrimS line) = false) :
    (parseMarkdownList content).title = some (jsTrimS line) ∧
    mkInvalidErr i (jsTrimS line) ∈ (parseMarkdownList content).errors := by
  have hne : ¬ (jsTrimS line = "") := by
    intro hc
    rcases hhead with h | h <;> (rw [hc] at h; exact Option.noConfusion h)
  have htodo : todoMatch (jsTrimS line).data = none := by
    apply todoNoneOfNoDashBracket (jsTrimS line) ?_ hndb
    simpa using hhead
  have hbullet : bulletMatch (jsTrimS line).data = none := by
    apply bulletNoneOfNoWs (jsTrimS line) ?_ hnlsw
    simpa using hhead
  obtain ⟨hlt, hget⟩ := List.getElem?_eq_some.mp hline
  have hdec : ((splitLines content.data).map String.mk)
      = ((splitLines content.data).map String.mk).take i ++
        line :: ((splitLines content.data).map String.mk).drop (i + 1) := by
    conv_lhs => rw [← List.take_append_drop i ((splitLines content.data).map String.mk)]
    congr 1
    rw [← hget]
    exact (List.get_drop_eq_drop _ i hlt).symm
  constructor
  · have htit : (parseMarkdownList content).title
        = extractTitle ((splitLines content.data).map String.mk) := rfl
    rw [htit]
    conv_lhs => rw [hdec]
    rw [extractTitleBlankPrefix _ _ hblank]
    rw [extractTitle, if_neg hne]
    rw [headingNoneOfMarker (jsTrimS line) (by simpa using hhead)]
    rw [if_pos ⟨by simp [hnlsw], by simp [hndb]⟩]
  · obtain ⟨post, hpost⟩ := invalidLineErrorsSplit content i line hline hhead htodo hbullet
    rw [hpost, runLinesBlank _ _ _ hblank]
    have hstack : nestedUnderChecklist initParseState.itemStack (getIndentationLevel line)
        = false := by
      simp [nestedUnderChecklist, initParseState, findParentForLevel]
    rw [hstack]
    simp

/-- Witness for `C10_title_error_duality` at the document
`"\n-Invalid item without space"`. -/
theorem C10_title_error_duality_witness :
    (parseMarkdownList "\n-Invalid item without space").title
        = some (jsTrimS "-Invalid item without space") ∧
    mkInvalidErr 1 (jsTrimS "-Invalid item without space")
        ∈ (parseMarkdownList "\n-Invalid item without space").errors :=
  C10_title_error_duality "\n-Invalid item without space" 1 "-Invalid item without space"
    (by decide) (by decide) (by decide) (by decide) (by decide)

/-! ## Engine reachability infrastructure -/

theorem reachableInd (P : SystemState → Prop) (hinit : P initSystem)
    (hstep : ∀ s op, P s → P (step s op)) :
    ∀ s, Reachable s → P s := by
  rintro s ⟨ops, rfl⟩
  suffices h : ∀ (l : List Op) (s0 : SystemState), P s0 → P (l.foldl step s0) from
    h ops initSystem hinit
  intro l
  induction l with
  | nil => intro s0 h0; exact h0
  | cons op rest ih => intro s0 h0; exact ih (step s0 op) (hstep s0 op h0)

theorem reachablePosInd (P : SystemState → Prop) (hinit : P initSystem)
    (hstep : ∀ s op, opTimePos op = true → P s → P (step s op)) :
    ∀ s, ReachablePos s → P s := by
  rintro s ⟨ops, hall, rfl⟩
  suffices h : ∀ (l : List Op), l.all opTimePos = true → ∀ s0 : SystemState,
      P s0 → P (l.foldl step s0) from h ops hall initSystem hinit
  intro l
  induction l with
  | nil => intro _ s0 h0; exact h0
  | cons op rest ih =>
    intro hall s0 h0
    rw [List.all_cons, Bool.and_eq_true] at hall
    exact ih hall.2 (step s0 op) (hstep s0 op hall.1 h0)

/-- Computed form of `logItemCovered` on a state with a live session
(also states the claim C6's description of the operation). -/
theorem logItemCoveredEq (s : SystemState) (id : String) (t : Int) (sess : LectureSession)
    (h : s.currentSession = some sess) :
    logItemCovered s id t = { s with
      currentSession := some { sess with
        itemTimestamps := sess.itemTimestamps.filter (fun e => e.itemId ≠ id) ++ [⟨id, t⟩] },
      checkedItemIds := insertOnce s.checkedItemIds id,
      pausedSlot := some ⟨{ sess with
          itemTimestamps := sess.itemTimestamps.filter (fun e => e.itemId ≠ id) ++ [⟨id, t⟩] },
        s.timerState, insertOnce s.checkedItemIds id⟩ } := by
  simp only [logItemCovered, h, persistPausedSnapshot]

/-- Computed form of `removeItemTimestamp` on a state with a live
session. -/
theorem removeItemTimestampEq (s : SystemState) (id : String) (sess : LectureSession)
    (h : s.currentSession = some sess) :
    removeItemTimestamp s id = { s with
      currentSession := some { sess with
        itemTimestamps := sess.itemTimestamps.filter (fun e => e.itemId ≠ id) },
      checkedItemIds := s.checkedItemIds.filter (fun y => y ≠ id),
      pausedSlot := some ⟨{ sess with
          itemTimestamps := sess.itemTimestamps.filter (fun e => e.itemId ≠ id) },
        s.timerState, s.checkedItemIds.filter (fun y => y ≠ id)⟩ } := by
  simp only [removeItemTimestamp, h, persistPausedSnapshot]

/-! ## C6: at most one timestamp per item id -/

theorem nodupFilterAppend (l : List ItemTimestamp) (id : String) (t : Int)
    (h : (l.map ItemTimestamp.itemId).Nodup) :
    (((l.filter (fun e => e.itemId ≠ id)) ++ [(⟨id, t⟩ : ItemTimestamp)]).map
      ItemTimestamp.itemId).Nodup := by
  rw [List.map_append]
  apply List.Nodup.append
  · exact h.sublist ((List.filter_sublist _).map ItemTimestamp.itemId)
  · simp
  · intro a ha hb
    simp only [List.map_cons, List.map_nil, List.mem_singleton] at hb
    subst hb
    obtain ⟨e, he, hfe⟩ := List.mem_map.mp ha
    have := List.of_mem_filter he
    simp only [decide_eq_true_eq] at this
    exact this hfe

theorem nodupFilter (l : List ItemTimestamp) (id : String)
    (h : (l.map ItemTimestamp.itemId).Nodup) :
    ((l.filter (fun e => e.itemId ≠ id)).map ItemTimestamp.itemId).Nodup :=
  h.sublist ((List.filter_sublist _).map ItemTimestamp.itemId)

/-- `pauseLecture` keeps the live session (with unchanged
`itemTimestamps`), and the snapshot it may write holds that session. -/
theorem pauseKeepsSome (s : SystemState) (t : Int) (sess : LectureSession)
    (hcs : s.currentSession = some sess) :
    ∃ sess2, (pauseLecture s t).currentSession = some sess2 ∧
      sess2.itemTimestamps = sess.itemTimestamps ∧
      (∀ snap, (pauseLecture s t).pausedSlot = some snap →
        snap.session = sess2 ∨ s.pausedSlot = some snap) := by
  cases hr : s.timerState.isRunning
  · have hid : pauseLecture s t = s := by simp [pauseLecture, hr]
    rw [hid]
    exact ⟨sess, hcs, rfl, fun snap hsnap => Or.inr hsnap⟩
  · simp only [pauseLecture, hr, hcs, persistPausedSnapshot]
    exact ⟨_, rfl, rfl, fun snap hsnap => by injection hsnap with h; exact Or.inl (by rw [← h])⟩

/-- In every branch of a successful `resumeLecture`, the live session
keeps its `itemTimestamps` and the snapshot written holds that same
session. -/
theorem resumeSessions (s : SystemState) (now : Int) (sess : LectureSession)
    (hr : s.timerState.isRunning = false) (hcs : s.currentSession = some sess) :
    ∃ sess2, (resumeLecture s now).currentSession = some sess2 ∧
      sess2.itemTimestamps = sess.itemTimestamps ∧
      (∀ snap, (resumeLecture s now).pausedSlot = some snap → snap.session = sess2) := by
  simp only [resumeLecture, hr, hcs, persistPausedSnapshot]
  cases hl : s.timerState.pausedIntervals.getLast? with
  | none => exact ⟨sess, rfl, rfl, fun snap hsnap => by injection hsnap with h; rw [← h]⟩
  | some iv =>
    dsimp only
    by_cases hiv : iv.«end» = 0
    · rw [if_pos hiv]
      by_cases hal : s.aliasLast = true
      · rw [if_pos hal]
        exact ⟨_, rfl, rfl, fun snap hsnap => by injection hsnap with h; rw [← h]⟩
      · rw [if_neg hal]
        exact ⟨sess, rfl, rfl, fun snap hsnap => by injection hsnap with h; rw [← h]⟩
    · rw [if_neg hiv]
      exact ⟨sess, rfl, rfl, fun snap hsnap => by injection hsnap with h; rw [← h]⟩

theorem stepPreservesTimestampsInv (s : SystemState) (op : Op)
    (h : timestampsInv s) : timestampsInv (step s op) := by
  obtain ⟨hcur, hslot⟩ := h
  cases op with
  | start outline now =>
    constructor
    · intro sess hs
      simp only [step, startLecture, Option.some.injEq] at hs
      subst hs
      simp [sessionIdsNodup]
    · intro snap hs
      simp [step, startLecture] at hs
  | pause now =>
    show timestampsInv (pauseLecture s now)
    cases hr : s.timerState.isRunning
    · simpa [pauseLecture, hr] using ⟨hcur, hslot⟩
    · cases hcs : s.currentSession with
      | none => simpa [pauseLecture, hr, hcs] using ⟨hcur, hslot⟩
      | some sess =>
        have hn := hcur sess hcs
        constructor
        · intro sess' hs
          simp only [pauseLecture, hr, hcs, persistPausedSnapshot,
            Option.some.injEq] at hs
          subst hs
          exact hn
        · intro snap hs
          simp only [pauseLecture, hr, hcs, persistPausedSnapshot,
            Option.some.injEq] at hs
          subst hs
          exact hn
  | resume now =>
    show timestampsInv (resumeLecture s now)
    cases hr : s.timerState.isRunning
    · cases hcs : s.currentSession with
      | none =>
        have hid : resumeLecture s now = s := by simp [resumeLecture, hr, hcs]
        rw [hid]
        exact ⟨hcur, hslot⟩
      | some sess =>
        have hn := hcur sess hcs
        obtain ⟨sess2, h1, h2, h3⟩ := resumeSessions s now sess hr hcs
        constructor
        · intro x hx
          rw [h1] at hx
          injection hx with hx
          subst hx
          show sessionIdsNodup sess2
          unfold sessionIdsNodup
          rw [h2]
          exact hn
        · intro snap hsnap
          have hss := h3 snap hsnap
          rw [hss]
          show sessionIdsNodup sess2
          unfold sessionIdsNodup
          rw [h2]
          exact hn
    · have hid : resumeLecture s now = s := by simp [resumeLecture, hr]
      rw [hid]
      exact ⟨hcur, hslot⟩
  | stop now nowInner =>
    show timestampsInv ((stopLecture s now nowInner).1)
    cases hcs : s.currentSession with
    | none => simpa [stopLecture, hcs] using ⟨hcur, hslot⟩
    | some sess =>
      have hshape : ((stopLecture s now nowInner).1).currentSession = none ∧
          ((stopLecture s now nowInner).1).pausedSlot = none := by
        cases hr : s.timerState.isRunning
        · simp only [stopLecture, hcs, hr, Bool.false_eq_true, if_false]
          exact ⟨by trivial, by trivial⟩
        · obtain ⟨sess2, h1, _, _⟩ := pauseKeepsSome s nowInner sess hcs
          simp only [stopLecture, hcs, hr, if_true, h1]
          exact ⟨by trivial, by trivial⟩
      constructor
      · intro sess' hs
        rw [hshape.1] at hs
        exact Option.noConfusion hs
      · intro snap hs
        rw [hshape.2] at hs
        exact Option.noConfusion hs
  | logItem id now =>
    show timestampsInv (logItemCovered s id now)
    cases hcs : s.currentSession with
    | none => simpa [logItemCovered, hcs] using ⟨hcur, hslot⟩
    | some sess =>
      have hn := hcur sess hcs
      rw [logItemCoveredEq s id now sess hcs]
      constructor
      · intro sess' hs
        simp only [Option.some.injEq] at hs
        subst hs
        exact nodupFilterAppend _ id now hn
      · intro snap hs
        simp only [Option.some.injEq] at hs
        subst hs
        exact nodupFilterAppend _ id now hn
  | removeItem id =>
    show timestampsInv (removeItemTimestamp s id)
    cases hcs : s.currentSession with
    | none => simpa [removeItemTimestamp, hcs] using ⟨hcur, hslot⟩
    | some sess =>
      have hn := hcur sess hcs
      rw [removeItemTimestampEq s id sess hcs]
      constructor
      · intro sess' hs
        simp only [Option.some.injEq] at hs
        subst hs
        exact nodupFilter _ id hn
      · intro snap hs
        simp only [Option.some.injEq] at hs
        subst hs
        exact nodupFilter _ id hn
  | restore now =>
    show timestampsInv ((restorePausedLecture s now).1)
    cases hsl : s.pausedSlot with
    | none => simpa [restorePausedLecture, hsl] using ⟨hcur, hslot⟩
    | some snap =>
      have hn := hslot snap hsl
      cases hrt : snap.timer.isRunning
      · constructor
        · intro sess' hs
          simp only [restorePausedLecture, hsl, hrt, Bool.false_eq_true, if_false,
            Option.some.injEq] at hs
          subst hs
          exact hn
        · intro snap' hs
          simp only [restorePausedLecture, hsl, hrt, Bool.false_eq_true, if_false] at hs
          injection hs with hs
          rw [← hs]
          exact hn
      · constructor
        · intro sess' hs
          simp only [restorePausedLecture, hsl, hrt, if_true, Option.some.injEq] at hs
          subst hs
          exact hn
        · intro snap' hs
          simp only [restorePausedLecture, hsl, hrt, if_true] at hs
          injection hs with hs
          rw [← hs]
          exact hn
  | restart =>
    constructor
    · intro sess hs
      simp [step, initSystem] at hs
    · intro snap hs
      simp only [step] at hs
      exact hslot snap hs

theorem reachableTimestampsInv (s : SystemState) (h : Reachable s) : timestampsInv s :=
  reachableInd timestampsInv
    ⟨fun _ hs => by simp [initSystem] at hs, fun _ hs => by simp [initSystem] at hs⟩
    stepPreservesTimestampsInv s h

theorem filterLenLeOfNodup (l : List ItemTimestamp) (id : String)
    (h : (l.map ItemTimestamp.itemId).Nodup) :
    (l.filter (fun e => e.itemId = id)).length ≤ 1 := by
  induction l with
  | nil => simp
  | cons e rest ih =>
    rw [List.map_cons, List.nodup_cons] at h
    by_cases he : e.itemId = id
    · rw [List.filter_cons, if_pos (by simpa using he)]
      have hrest : rest.filter (fun e => decide (e.itemId = id)) = [] := by
        rw [List.filter_eq_nil_iff]
        intro a ha
        simp only [decide_eq_true_eq]
        intro hfa
        exact h.1 (List.mem_map.mpr ⟨a, ha, by rw [hfa, he]⟩)
      rw [hrest]
      simp
    · rw [List.filter_cons, if_neg (by simpa using he)]
      exact ih h.2

/-- C6: in every reachable engine state, the current session's
`itemTimestamps` contains at most one entry per item id; the property
still holds after every engine operation; `logItemCovered` first
removes any entry for the id and appends a single fresh
`{itemId, timestamp}`; and `removeItemTimestamp` removes every entry
for the id. -/
theorem C6_item_timestamps_unique (s : SystemState) (hreach : Reachable s) :
    (∀ sess, s.currentSession = some sess → ∀ id,
      (sess.itemTimestamps.filter (fun e => e.itemId = id)).length ≤ 1) ∧
    (∀ op sess, (step s op).currentSession = some sess → ∀ id,
      (sess.itemTimestamps.filter (fun e => e.itemId = id)).length ≤ 1) ∧
    (∀ sess id now, s.currentSession = some sess →
      (logItemCovered s id now).currentSession = some { sess with
        itemTimestamps := sess.itemTimestamps.filter (fun e => e.itemId ≠ id) ++ [⟨id, now⟩] }) ∧
    (∀ sess id, s.currentSession = some sess →
      (removeItemTimestamp s id).currentSession = some { sess with
        itemTimestamps := sess.itemTimestamps.filter (fun e => e.itemId ≠ id) }) := by
  have hinv := reachableTimestampsInv s hreach
  refine ⟨?_, ?_, ?_, ?_⟩
  · intro sess h id
    exact filterLenLeOfNodup _ id (hinv.1 sess h)
  · intro op sess h id
    exact filterLenLeOfNodup _ id ((stepPreservesTimestampsInv s op hinv).1 sess h)
  · intro sess id now h
    rw [logItemCoveredEq s id now sess h]
  · intro sess id h
    rw [removeItemTimestampEq s id sess h]

/-- Witness for `C6_item_timestamps_unique` after start-then-log. -/
theorem C6_item_timestamps_unique_witness :
    (((⟨"session_5", "o1", 5, [], [⟨"i1", 6⟩], none⟩ : LectureSession).itemTimestamps.filter
        (fun e => e.itemId = "i1")).length ≤ 1) ∧
    (logItemCovered (List.foldl step initSystem [Op.start ⟨"o1", "T", []⟩ 5]) "i1" 6).currentSession
      = some { (⟨"session_5", "o1", 5, [], [], none⟩ : LectureSession) with
          itemTimestamps := ([] : List ItemTimestamp).filter (fun e => e.itemId ≠ "i1") ++ [⟨"i1", 6⟩] } := by
  have h := C6_item_timestamps_unique (List.foldl step initSystem [Op.start ⟨"o1", "T", []⟩ 5])
    ⟨[Op.start ⟨"o1", "T", []⟩ 5], rfl⟩
  exact ⟨h.2.1 (Op.logItem "i1" 6) _ (by decide) "i1", h.2.2.1 _ "i1" 6 (by decide)⟩

/-! ## C7: pause idempotence -/

theorem pauseNoopOfNotRunning (s : SystemState) (t : Int)
    (h : s.timerState.isRunning = false) : pauseLecture s t = s := by
  simp [pauseLecture, h]

theorem stepPreservesOpenInv (s : SystemState) (op : Op) (hop : opTimePos op = true)
    (h : openIntervalsInv s) : openIntervalsInv (step s op) := by
  obtain ⟨hcur, hslot⟩ := h
  cases op with
  | start outline now =>
    constructor
    · constructor
      · intro _ iv hiv
        simp [step, startLecture] at hiv
      · intro iv hiv
        simp [step, startLecture] at hiv
    · intro snap hs
      simp [step, startLecture] at hs
  | pause now =>
    show openIntervalsInv (pauseLecture s now)
    cases hr : s.timerState.isRunning
    · rw [pauseNoopOfNotRunning s now hr]
      exact ⟨hcur, hslot⟩
    · cases hcs : s.currentSession with
      | none =>
        have hid : pauseLecture s now = s := by simp [pauseLecture, hcs]
        rw [hid]
        exact ⟨hcur, hslot⟩
      | some sess =>
        have htOK : timerOpenOK { s.timerState with
            isRunning := false
            pausedIntervals := s.timerState.pausedIntervals ++ [⟨now, 0⟩] } := by
          constructor
          · intro hcon
            exact absurd hcon (by simp)
          · intro iv hiv
            dsimp only at hiv
            rw [List.dropLast_concat] at hiv
            exact hcur.1 hr iv hiv
        constructor
        · show timerOpenOK (pauseLecture s now).timerState
          have hts : (pauseLecture s now).timerState = { s.timerState with
              isRunning := false
              pausedIntervals := s.timerState.pausedIntervals ++ [⟨now, 0⟩] } := by
            simp only [pauseLecture, hr, hcs, persistPausedSnapshot]
          rw [hts]
          exact htOK
        · intro snap hs
          simp only [pauseLecture, hr, hcs, persistPausedSnapshot] at hs
          injection hs with hs
          rw [← hs]
          exact htOK
  | resume now =>
    show openIntervalsInv (resumeLecture s now)
    have hnow : (0 : Int) < now := by simpa [opTimePos] using hop
    cases hr : s.timerState.isRunning
    · cases hcs : s.currentSession with
      | none =>
        have hid : resumeLecture s now = s := by simp [resumeLecture, hr, hcs]
        rw [hid]
        exact ⟨hcur, hslot⟩
      | some sess =>
        have key : timerOpenOK (resumeLecture s now).timerState ∧
            (∀ snap, (resumeLecture s now).pausedSlot = some snap →
              snap.timer = (resumeLecture s now).timerState) := by
          simp only [resumeLecture, hr, hcs, persistPausedSnapshot]
          cases hl : s.timerState.pausedIntervals.getLast? with
          | none =>
            have hnil := List.getLast?_eq_none_iff.mp hl
            refine ⟨⟨?_, ?_⟩, ?_⟩
            · intro _ iv hiv
              dsimp only at hiv
              rw [hnil] at hiv
              simp at hiv
            · intro iv hiv
              dsimp only at hiv
              exact hcur.2 iv hiv
            · intro snap hs
              injection hs with hs
              rw [← hs]
          | some iv =>
            dsimp only
            by_cases hiv : iv.«end» = 0
            · rw [if_pos hiv]
              refine ⟨⟨?_, ?_⟩, ?_⟩
              · intro _ iv2 hiv2
                dsimp only at hiv2
                rcases List.mem_append.mp hiv2 with h2 | h2
                · exact hcur.2 iv2 h2
                · have : iv2 = ⟨iv.start, now⟩ := by simpa using h2
                  rw [this]
                  show ¬ (now = 0)
                  omega
              · intro iv2 hiv2
                dsimp only at hiv2
                rw [List.dropLast_concat] at hiv2
                exact hcur.2 iv2 hiv2
              · intro snap hs
                injection hs with hs
                rw [← hs]
            · rw [if_neg hiv]
              have hsplit := List.dropLast_append_getLast? iv hl
              refine ⟨⟨?_, ?_⟩, ?_⟩
              · intro _ iv2 hiv2
                dsimp only at hiv2
                rw [← hsplit] at hiv2
                rcases List.mem_append.mp hiv2 with h2 | h2
                · exact hcur.2 iv2 h2
                · have : iv2 = iv := by simpa using h2
                  rw [this]
                  exact hiv
              · intro iv2 hiv2
                dsimp only at hiv2
                exact hcur.2 iv2 hiv2
              · intro snap hs
                injection hs with hs
                rw [← hs]
        constructor
        · exact key.1
        · intro snap hs
          rw [key.2 snap hs]
          exact key.1
    · have hid : resumeLecture s now = s := by simp [resumeLecture, hr]
      rw [hid]
      exact ⟨hcur, hslot⟩
  | stop now nowInner =>
    show openIntervalsInv ((stopLecture s now nowInner).1)
    cases hcs : s.currentSession with
    | none =>
      have hid : (stopLecture s now nowInner).1 = s := by simp [stopLecture, hcs]
      rw [hid]
      exact ⟨hcur, hslot⟩
    | some sess =>
      have hshape : ((stopLecture s now nowInner).1).timerState = ⟨false, none, 0, []⟩ ∧
          ((stopLecture s now nowInner).1).pausedSlot = none := by
        cases hr : s.timerState.isRunning
        · simp only [stopLecture, hcs, hr, Bool.false_eq_true, if_false]
          exact ⟨by trivial, by trivial⟩
        · obtain ⟨sess2, h1, _, _⟩ := pauseKeepsSome s nowInner sess hcs
          simp only [stopLecture, hcs, hr, if_true, h1]
          exact ⟨by trivial, by trivial⟩
      constructor
      · rw [hshape.1]
        exact ⟨fun _ iv hiv => by simp at hiv, fun iv hiv => by simp at hiv⟩
      · intro snap hs
        rw [hshape.2] at hs
        exact Option.noConfusion hs
  | logItem id now =>
    show openIntervalsInv (logItemCovered s id now)
    cases hcs : s.currentSession with
    | none =>
      have hid : logItemCovered s id now = s := by simp [logItemCovered, hcs]
      rw [hid]
      exact ⟨hcur, hslot⟩
    | some sess =>
      rw [logItemCoveredEq s id now sess hcs]
      exact ⟨hcur, fun snap hs => by injection hs with hs; rw [← hs]; exact hcur⟩
  | removeItem id =>
    show openIntervalsInv (removeItemTimestamp s id)
    cases hcs : s.currentSession with
    | none =>
      have hid : removeItemTimestamp s id = s := by simp [removeItemTimestamp, hcs]
      rw [hid]
      exact ⟨hcur, hslot⟩
    | some sess =>
      rw [removeItemTimestampEq s id sess hcs]
      exact ⟨hcur, fun snap hs => by injection hs with hs; rw [← hs]; exact hcur⟩
  | restore now =>
    show openIntervalsInv ((restorePausedLecture s now).1)
    cases hsl : s.pausedSlot with
    | none =>
      have hid : (restorePausedLecture s now).1 = s := by simp [restorePausedLecture, hsl]
      rw [hid]
      exact ⟨hcur, hslot⟩
    | some snap =>
      have hsOK := hslot snap hsl
      cases hrt : snap.timer.isRunning
      · constructor
        · show timerOpenOK ((restorePausedLecture s now).1).timerState
          have hts : ((restorePausedLecture s now).1).timerState = snap.timer := by
            simp only [restorePausedLecture, hsl, hrt, Bool.false_eq_true, if_false]
          rw [hts]
          exact hsOK
        · intro snap2 hs
          simp only [restorePausedLecture, hsl, hrt, Bool.false_eq_true, if_false] at hs
          injection hs with hs
          rw [← hs]
          exact hsOK
      · constructor
        · show timerOpenOK ((restorePausedLecture s now).1).timerState
          have hts : ((restorePausedLecture s now).1).timerState = { snap.timer with
              isRunning := false
              pausedIntervals := snap.timer.pausedIntervals ++ [⟨now, 0⟩] } := by
            simp only [restorePausedLecture, hsl, hrt, if_true]
          rw [hts]
          constructor
          · intro hcon
            exact absurd hcon (by simp)
          · intro iv hiv
            dsimp only at hiv
            rw [List.dropLast_concat] at hiv
            exact hsOK.1 hrt iv hiv
        · intro snap2 hs
          simp only [restorePausedLecture, hsl, hrt, if_true] at hs
          injection hs with hs
          rw [← hs]
          exact hsOK
  | restart =>
    constructor
    · exact ⟨fun _ iv hiv => by simp [step, initSystem] at hiv,
        fun iv hiv => by simp [step, initSystem] at hiv⟩
    · intro snap hs
      simp only [step] at hs
      exact hslot snap hs

theorem reachablePosOpenInv (s : SystemState) (h : ReachablePos s) : openIntervalsInv s :=
  reachablePosInd openIntervalsInv
    ⟨⟨fun _ iv hiv => by simp [initSystem] at hiv, fun iv hiv => by simp [initSystem] at hiv⟩,
      fun _ hs => by simp [initSystem] at hs⟩
    stepPreservesOpenInv s h

/-- C7: on a reachable running session, `pauseLecture` leaves exactly
one open pause interval, and a second `pauseLecture` with no
intervening resume is a no-op that changes neither the timer state nor
the session. -/
theorem C7_pause_idempotent (s : SystemState) (t1 t2 : Int)
    (hreach : ReachablePos s) (hrun : s.timerState.isRunning = true)
    (hsess : s.currentSession.isSome = true) :
    pauseLecture (pauseLecture s t1) t2 = pauseLecture s t1 ∧
    ((pauseLecture s t1).timerState.pausedIntervals.filter
      (fun iv => iv.«end» = 0)).length = 1 := by
  obtain ⟨sess, hcs⟩ := Option.isSome_iff_exists.mp hsess
  have hOK := (reachablePosOpenInv s hreach).1
  have hclosed := hOK.1 hrun
  have hpt : (pauseLecture s t1).timerState = { s.timerState with
      isRunning := false
      pausedIntervals := s.timerState.pausedIntervals ++ [⟨t1, 0⟩] } := by
    simp only [pauseLecture, hrun, hcs, persistPausedSnapshot]
  constructor
  · apply pauseNoopOfNotRunning
    rw [hpt]
  · rw [hpt]
    dsimp only
    rw [List.filter_append]
    have h1 : s.timerState.pausedIntervals.filter (fun iv => iv.«end» = 0) = [] := by
      rw [List.filter_eq_nil_iff]
      intro iv hiv
      simpa using hclosed iv hiv
    rw [h1]
    simp

/-- Witness for `C7_pause_idempotent` right after a started lecture. -/
theorem C7_pause_idempotent_witness :
    pauseLecture (pauseLecture (List.foldl step initSystem [Op.start ⟨"o1", "T", []⟩ 5]) 6) 7
        = pauseLecture (List.foldl step initSystem [Op.start ⟨"o1", "T", []⟩ 5]) 6 ∧
    (((pauseLecture (List.foldl step initSystem [Op.start ⟨"o1", "T", []⟩ 5]) 6).timerState.pausedIntervals.filter
      (fun iv => iv.«end» = 0)).length = 1) :=
  C7_pause_idempotent (List.foldl step initSystem [Op.start ⟨"o1", "T", []⟩ 5]) 6 7
    ⟨[Op.start ⟨"o1", "T", []⟩ 5], by decide, rfl⟩ (by decide) (by decide)

/-! ## C4: pause snapshot / restore round trip -/

theorem insertOnceMem (l : List String) (x y : String) (h : y ∈ l) : y ∈ insertOnce l x := by
  unfold insertOnce
  split
  · exact h
  · exact List.mem_append_left _ h

theorem insertOnceSelf (l : List String) (x : String) : x ∈ insertOnce l x := by
  unfold insertOnce
  split
  · assumption
  · exact List.mem_append_right _ (List.mem_singleton.mpr rfl)

theorem applyLogsFacts (logs : List (String × Int)) :
    ∀ (s : SystemState) (sess : LectureSession), s.currentSession = some sess →
    ∃ sess2, (applyLogs s logs).currentSession = some sess2 ∧
      (applyLogs s logs).timerState = s.timerState ∧
      sess2.outlineId = sess.outlineId ∧
      (∀ id, (∃ e ∈ sess.itemTimestamps, e.itemId = id) →
        ∃ e ∈ sess2.itemTimestamps, e.itemId = id) ∧
      (∀ id, id ∈ s.checkedItemIds → id ∈ (applyLogs s logs).checkedItemIds) ∧
      (∀ p ∈ logs, (∃ e ∈ sess2.itemTimestamps, e.itemId = p.1) ∧
        p.1 ∈ (applyLogs s logs).checkedItemIds) := by
  induction logs with
  | nil =>
    intro s sess h
    exact ⟨sess, h, rfl, rfl, fun id he => he, fun id hi => hi, by simp⟩
  | cons p r ih =>
    intro s sess h
    have hstep := logItemCoveredEq s p.1 p.2 sess h
    have hcs1 : (logItemCovered s p.1 p.2).currentSession = some { sess with
        itemTimestamps :=
          sess.itemTimestamps.filter (fun e => e.itemId ≠ p.1) ++ [⟨p.1, p.2⟩] } := by
      rw [hstep]
    obtain ⟨sess2, hcs2, hts2, hout2, hpres2, hchk2, hlogs2⟩ :=
      ih (logItemCovered s p.1 p.2) _ hcs1
    have happ : applyLogs s (p :: r) = applyLogs (logItemCovered s p.1 p.2) r := rfl
    have hts1 : (logItemCovered s p.1 p.2).timerState = s.timerState := by
      rw [hstep]
    have hchk1 : (logItemCovered s p.1 p.2).checkedItemIds = insertOnce s.checkedItemIds p.1 := by
      rw [hstep]
    have hentry1 : ∀ id, (∃ e ∈ sess.itemTimestamps, e.itemId = id) →
        ∃ e ∈ sess.itemTimestamps.filter (fun e => e.itemId ≠ p.1) ++ [⟨p.1, p.2⟩],
          e.itemId = id := by
      intro id he
      obtain ⟨e, hmem, hid⟩ := he
      by_cases hpe : id = p.1
      · exact ⟨⟨p.1, p.2⟩, List.mem_append_right _ (List.mem_singleton.mpr rfl), hpe.symm⟩
      · refine ⟨e, List.mem_append_left _ ?_, hid⟩
        rw [List.mem_filter]
        refine ⟨hmem, ?_⟩
        simp only [ne_eq, decide_eq_true_eq]
        rw [hid]
        exact hpe
    refine ⟨sess2, by rw [happ]; exact hcs2, ?_, ?_, ?_, ?_, ?_⟩
    · rw [happ, hts2, hts1]
    · rw [hout2]
    · intro id he
      exact hpres2 id (hentry1 id he)
    · intro id hi
      rw [happ]
      apply hchk2
      rw [hchk1]
      exact insertOnceMem _ _ _ hi
    · intro q hq
      rcases List.mem_cons.mp hq with hq | hq
      · subst hq
        constructor
        · apply hpres2
          exact ⟨⟨q.1, q.2⟩, List.mem_append_right _ (List.mem_singleton.mpr rfl), rfl⟩
        · rw [happ]
          apply hchk2
          rw [hchk1]
          exact insertOnceSelf _ _
      · rw [happ]
        exact hlogs2 q hq

theorem pauseRunningSlot (s : SystemState) (t : Int) (sess : LectureSession)
    (hr : s.timerState.isRunning = true) (hcs : s.currentSession = some sess) :
    (pauseLecture s t).pausedSlot = some
      ⟨{ sess with pausedIntervals := sess.pausedIntervals ++ [⟨t, 0⟩] },
       { s.timerState with
          isRunning := false
          pausedIntervals := s.timerState.pausedIntervals ++ [⟨t, 0⟩] },
       s.checkedItemIds⟩ := by
  simp only [pauseLecture, hr, hcs, persistPausedSnapshot]

theorem restoreNotRunning (s : SystemState) (tr : Int) (snap : PausedLectureState)
    (hsl : s.pausedSlot = some snap) (hnr : snap.timer.isRunning = false) :
    restorePausedLecture s tr = ({ s with
        currentSession := some snap.session,
        timerState := snap.timer,
        checkedItemIds := dedupKeepFirst snap.checkedItemIds,
        aliasLast := false }, true) := by
  simp only [restorePausedLecture, hsl, hnr, Bool.false_eq_true, if_false]

/-- C4: start, log a batch of item ids, pause.  The persisted snapshot
names the started outline and contains every logged id among its
checked ids; after a process restart, restore succeeds and the restored
current session has a timestamp entry for every logged id. -/
theorem C4_pause_restore_roundtrip (s0 : SystemState) (outline : Outline)
    (t0 tp tr : Int) (logs : List (String × Int)) :
    ∃ snap,
      loadPausedLectureState
          (pauseLecture (applyLogs (startLecture s0 outline t0).1 logs) tp) = some snap ∧
      snap.session.outlineId = outline.id ∧
      (∀ p ∈ logs, p.1 ∈ snap.checkedItemIds) ∧
      (restorePausedLecture
        (step (pauseLecture (applyLogs (startLecture s0 outline t0).1 logs) tp) Op.restart)
        tr).2 = true ∧
      ∃ sess,
        getCurrentSession (restorePausedLecture
          (step (pauseLecture (applyLogs (startLecture s0 outline t0).1 logs) tp) Op.restart)
          tr).1 = some sess ∧
        ∀ p ∈ logs, ∃ e ∈ sess.itemTimestamps, e.itemId = p.1 := by
  obtain ⟨sess2, hcs2, hts2, hout2, hpres2, hchk2, hlogs2⟩ :=
    applyLogsFacts logs (startLecture s0 outline t0).1
      ⟨"session_" ++ toString t0, outline.id, t0, [], [], none⟩ rfl
  have hr2 : (applyLogs (startLecture s0 outline t0).1 logs).timerState.isRunning = true := by
    rw [hts2]
    rfl
  have hslot := pauseRunningSlot (applyLogs (startLecture s0 outline t0).1 logs) tp sess2
    hr2 hcs2
  have hslot4 : (step (pauseLecture (applyLogs (startLecture s0 outline t0).1 logs) tp)
      Op.restart).pausedSlot = some
      ⟨{ sess2 with pausedIntervals := sess2.pausedIntervals ++ [⟨tp, 0⟩] },
       { (applyLogs (startLecture s0 outline t0).1 logs).timerState with
          isRunning := false
          pausedIntervals :=
            (applyLogs (startLecture s0 outline t0).1 logs).timerState.pausedIntervals
              ++ [⟨tp, 0⟩] },
       (applyLogs (startLecture s0 outline t0).1 logs).checkedItemIds⟩ := hslot
  have hrest := restoreNotRunning
    (step (pauseLecture (applyLogs (startLecture s0 outline t0).1 logs) tp) Op.restart) tr
    _ hslot4 rfl
  refine ⟨_, hslot, ?_, ?_, ?_, ?_⟩
  · exact hout2
  · intro p hp
    exact (hlogs2 p hp).2
  · rw [hrest]
  · refine ⟨{ sess2 with pausedIntervals := sess2.pausedIntervals ++ [⟨tp, 0⟩] }, ?_, ?_⟩
    · show (restorePausedLecture _ tr).1.currentSession = _
      rw [hrest]
    · intro p hp
      exact (hlogs2 p hp).1

end Stamper
